import Mathlib

/-!
Verification development for a minimal SSE chat application consisting of
a browser-side stream consumer (`src/App.tsx`, function `sendMessage`),
a streaming serverless handler (the unnamed api file, function `handler`)
and a legacy non-streaming handler (`api/agent.ts`, function `handler`).

Strings are modelled as lists of Unicode scalar values (`List Char`); the
transport layer is modelled at the byte level (`List Nat`, each < 256 for
real inputs).  JavaScript builtins used by the code (`String.prototype.split`,
`String.prototype.trim`, `TextDecoder`, `JSON.parse`, `JSON.stringify`)
are embedded as executable Lean functions following their specifications.
-/

/-- Chat message roles, from the `Message` interface in `App.tsx`. -/
inductive Role where
  | user
  | assistant
deriving DecidableEq, Repr

/-- The `Message` interface of `App.tsx`: `{ role, content }`. -/
structure Message where
  role : Role
  content : List Char
deriving DecidableEq, Repr

/-! ## `buffer.split('\n\n')` — the SSE frame delimiter split

`jsSplitNN` mirrors JavaScript `String.prototype.split` with the fixed
two-character separator `"\n\n"`: a greedy left-to-right scan, never
returning the empty list. -/

/-- JavaScript `s.split('\n\n')` on a list of characters. -/
def jsSplitNN : List Char → List (List Char)
  | [] => [[]]
  | [c] => [[c]]
  | c :: d :: rest =>
    if c = '\n' ∧ d = '\n' then [] :: jsSplitNN rest
    else
      match jsSplitNN (d :: rest) with
      | [] => [[c]]
      | p :: ps => (c :: p) :: ps

/-- Scan form of `jsSplitNN`: the completed parts together with the final
(still open) part.  Used for reasoning; `jsSplitNN_eq_scanNN` connects it to
the faithful split. -/
def scanNN : List Char → List (List Char) × List Char
  | [] => ([], [])
  | [c] => ([], [c])
  | c :: d :: rest =>
    if c = '\n' ∧ d = '\n' then
      let r := scanNN rest
      ([] :: r.1, r.2)
    else
      let r := scanNN (d :: rest)
      match r.1 with
      | [] => ([], c :: r.2)
      | p :: ps => ((c :: p) :: ps, r.2)

/-- Two-step structural induction for lists of characters. -/
theorem twoStepListInd {P : List Char → Prop} (h0 : P []) (h1 : ∀ c, P [c])
    (h2 : ∀ c d rest, P rest → P (d :: rest) → P (c :: d :: rest)) :
    ∀ l, P l
  | [] => h0
  | [c] => h1 c
  | c :: d :: rest =>
    h2 c d rest (twoStepListInd h0 h1 h2 rest) (twoStepListInd h0 h1 h2 (d :: rest))

theorem scanNN_sep (c d : Char) (rest : List Char) (h : c = '\n' ∧ d = '\n') :
    scanNN (c :: d :: rest) = ([] :: (scanNN rest).1, (scanNN rest).2) := by
  rw [scanNN, if_pos h]

theorem scanNN_nosep_nil (c d : Char) (rest : List Char) (h : ¬ (c = '\n' ∧ d = '\n'))
    (hs : (scanNN (d :: rest)).1 = []) :
    scanNN (c :: d :: rest) = ([], c :: (scanNN (d :: rest)).2) := by
  rw [scanNN, if_neg h]
  show (match (scanNN (d :: rest)).1 with
        | [] => (([] : List (List Char)), c :: (scanNN (d :: rest)).2)
        | p :: ps => ((c :: p) :: ps, (scanNN (d :: rest)).2)) = _
  rw [hs]

theorem scanNN_nosep_cons (c d : Char) (rest : List Char) (h : ¬ (c = '\n' ∧ d = '\n'))
    (p : List Char) (ps : List (List Char)) (hs : (scanNN (d :: rest)).1 = p :: ps) :
    scanNN (c :: d :: rest) = ((c :: p) :: ps, (scanNN (d :: rest)).2) := by
  rw [scanNN, if_neg h]
  show (match (scanNN (d :: rest)).1 with
        | [] => (([] : List (List Char)), c :: (scanNN (d :: rest)).2)
        | p :: ps => ((c :: p) :: ps, (scanNN (d :: rest)).2)) = _
  rw [hs]

theorem jsSplitNN_sep (c d : Char) (rest : List Char) (h : c = '\n' ∧ d = '\n') :
    jsSplitNN (c :: d :: rest) = [] :: jsSplitNN rest := by
  rw [jsSplitNN, if_pos h]

theorem jsSplitNN_nosep (c d : Char) (rest : List Char) (h : ¬ (c = '\n' ∧ d = '\n')) :
    jsSplitNN (c :: d :: rest) =
      (match jsSplitNN (d :: rest) with
       | [] => [[c]]
       | p :: ps => (c :: p) :: ps) := by
  rw [jsSplitNN, if_neg h]

theorem jsSplitNN_eq_scanNN (l : List Char) :
    jsSplitNN l = (scanNN l).1 ++ [(scanNN l).2] := by
  induction l using twoStepListInd with
  | h0 => simp [jsSplitNN, scanNN]
  | h1 c => simp [jsSplitNN, scanNN]
  | h2 c d rest ih1 ih2 =>
    by_cases hnn : c = '\n' ∧ d = '\n'
    · rw [jsSplitNN_sep c d rest hnn, scanNN_sep c d rest hnn, ih1]
      simp
    · rw [jsSplitNN_nosep c d rest hnn]
      rcases hs : (scanNN (d :: rest)).1 with _ | ⟨p, ps⟩
      · rw [scanNN_nosep_nil c d rest hnn hs, ih2, hs]
        simp
      · rw [scanNN_nosep_cons c d rest hnn p ps hs, ih2, hs]
        simp

/-- If the scan produced no completed part, the open part is the whole input. -/
theorem scanNN_no_part (l : List Char) (h : (scanNN l).1 = []) :
    (scanNN l).2 = l := by
  induction l using twoStepListInd with
  | h0 => simp [scanNN]
  | h1 c => simp [scanNN]
  | h2 c d rest ih1 ih2 =>
    by_cases hnn : c = '\n' ∧ d = '\n'
    · rw [scanNN_sep c d rest hnn] at h
      simp at h
    · rcases hs : (scanNN (d :: rest)).1 with _ | ⟨p, ps⟩
      · rw [scanNN_nosep_nil c d rest hnn hs]
        simpa using ih2 hs
      · rw [scanNN_nosep_cons c d rest hnn p ps hs] at h
        simp at h

/-- Feeding the scanner `a ++ b` is the same as feeding it `a`, keeping the
open part, and feeding that open part followed by `b`. -/
theorem scanNN_append (a b : List Char) :
    scanNN (a ++ b) =
      ((scanNN a).1 ++ (scanNN ((scanNN a).2 ++ b)).1,
        (scanNN ((scanNN a).2 ++ b)).2) := by
  induction a using twoStepListInd with
  | h0 => simp [scanNN]
  | h1 c => simp [scanNN]
  | h2 c d rest ih1 ih2 =>
    have hab : c :: d :: rest ++ b = c :: d :: (rest ++ b) := rfl
    by_cases hnn : c = '\n' ∧ d = '\n'
    · rw [hab, scanNN_sep c d (rest ++ b) hnn, scanNN_sep c d rest hnn, ih1]
      simp
    · rcases hs : (scanNN (d :: rest)).1 with _ | ⟨p, ps⟩
      · -- no completed part in `d :: rest`: its open part is itself, so both
        -- sides process the very same character list
        have hopen : (scanNN (d :: rest)).2 = d :: rest := scanNN_no_part _ hs
        rw [scanNN_nosep_nil c d rest hnn hs, hopen]
        simp
      · have hscrut : (scanNN (d :: (rest ++ b))).1
            = p :: (ps ++ (scanNN ((scanNN (d :: rest)).2 ++ b)).1) := by
          have : scanNN (d :: rest ++ b)
              = ((scanNN (d :: rest)).1 ++ (scanNN ((scanNN (d :: rest)).2 ++ b)).1,
                  (scanNN ((scanNN (d :: rest)).2 ++ b)).2) := ih2
          rw [show d :: (rest ++ b) = d :: rest ++ b from rfl, this, hs]
          simp
        rw [hab, scanNN_nosep_cons c d (rest ++ b) hnn _ _ hscrut,
          scanNN_nosep_cons c d rest hnn p ps hs]
        have h2snd : (scanNN (d :: (rest ++ b))).2
            = (scanNN ((scanNN (d :: rest)).2 ++ b)).2 := by
          rw [show d :: (rest ++ b) = d :: rest ++ b from rfl, ih2]
        rw [h2snd]
        simp

/-! ## `TextDecoder` — incremental WHATWG UTF-8 decoding

The client creates one `TextDecoder` and calls
`decoder.decode(value, { stream: true })` for every chunk, so partial
multi-byte sequences are carried across chunk boundaries in decoder state.
The state machine below follows the WHATWG Encoding standard's UTF-8
decoder (errorMode `replacement`), including the stripping of a leading
byte-order mark (the default `ignoreBOM: false`). -/

/-- State of the incremental UTF-8 decoder: the accumulated code point, how
many continuation bytes are still needed, the admissible range for the next
continuation byte, and whether the start-of-stream BOM check is pending. -/
structure DecState where
  cp : Nat
  needed : Nat
  lower : Nat
  upper : Nat
  atStart : Bool
deriving DecidableEq, Repr

def utf8Init : DecState := ⟨0, 0, 0x80, 0xBF, true⟩

/-- Handling of a byte when no multi-byte sequence is in progress. -/
def decodeFresh (st : DecState) (b : Nat) : DecState × List Char :=
  if b ≤ 0x7F then (st, [Char.ofNat b])
  else if 0xC2 ≤ b ∧ b ≤ 0xDF then
    ({ st with needed := 1, cp := b % 32 }, [])
  else if 0xE0 ≤ b ∧ b ≤ 0xEF then
    ({ st with
        needed := 2
        cp := b % 16
        lower := if b = 0xE0 then 0xA0 else 0x80
        upper := if b = 0xED then 0x9F else 0xBF }, [])
  else if 0xF0 ≤ b ∧ b ≤ 0xF4 then
    ({ st with
        needed := 3
        cp := b % 8
        lower := if b = 0xF0 then 0x90 else 0x80
        upper := if b = 0xF4 then 0x8F else 0xBF }, [])
  else (st, ['�'])

/-- One byte of WHATWG UTF-8 decoding, without the BOM layer.  On a bad
continuation byte the decoder emits U+FFFD and reprocesses the byte with a
fresh state ("prepend byte to stream"). -/
def decodeRaw (st : DecState) (b : Nat) : DecState × List Char :=
  if st.needed = 0 then decodeFresh st b
  else if st.lower ≤ b ∧ b ≤ st.upper then
    let cp := st.cp * 64 + b % 64
    if st.needed = 1 then
      ({ st with needed := 0, cp := 0, lower := 0x80, upper := 0xBF }, [Char.ofNat cp])
    else
      ({ st with needed := st.needed - 1, cp := cp, lower := 0x80, upper := 0xBF }, [])
  else
    let r := decodeFresh { st with needed := 0, cp := 0, lower := 0x80, upper := 0xBF } b
    (r.1, '�' :: r.2)

/-- BOM layer: a U+FEFF that is the very first code point of the stream is
removed (`ignoreBOM: false`, the `TextDecoder` default). -/
def stripBom (atStart : Bool) (out : List Char) : Bool × List Char :=
  match atStart, out with
  | false, cs => (false, cs)
  | true, [] => (true, [])
  | true, c :: cs => (false, if c = '﻿' then cs else c :: cs)

def decodeByte (st : DecState) (b : Nat) : DecState × List Char :=
  let r := decodeRaw st b
  let s := stripBom st.atStart r.2
  ({ r.1 with atStart := s.1 }, s.2)

def decodeChunk : DecState → List Nat → DecState × List Char
  | st, [] => (st, [])
  | st, b :: bs =>
    let r := decodeByte st b
    let r2 := decodeChunk r.1 bs
    (r2.1, r.2 ++ r2.2)

theorem decodeChunk_append (st : DecState) (a b : List Nat) :
    decodeChunk st (a ++ b) =
      ((decodeChunk (decodeChunk st a).1 b).1,
        (decodeChunk st a).2 ++ (decodeChunk (decodeChunk st a).1 b).2) := by
  induction a generalizing st with
  | nil => simp [decodeChunk]
  | cons x xs ih =>
    simp only [List.cons_append, decodeChunk, List.append_eq]
    rw [ih]
    simp [List.append_assoc]

/-! ## UTF-8 encoding (what `res.write` does to the strings the server
writes on the wire). -/

def utf8EncodeChar (c : Char) : List Nat :=
  let n := c.toNat
  if n ≤ 0x7F then [n]
  else if n ≤ 0x7FF then [0xC0 + n / 64, 0x80 + n % 64]
  else if n ≤ 0xFFFF then [0xE0 + n / 4096, 0x80 + n / 64 % 64, 0x80 + n % 64]
  else [0xF0 + n / 0x40000, 0x80 + n / 4096 % 64, 0x80 + n / 64 % 64, 0x80 + n % 64]

def utf8Encode (s : List Char) : List Nat := (s.map utf8EncodeChar).flatten


theorem stripBom_fst_single (f : Bool) (c : Char) : (stripBom f [c]).1 = false := by
  cases f <;> simp [stripBom]

theorem stripBom_false (out : List Char) : stripBom false out = (false, out) := rfl

theorem decodeByte_ascii (f : Bool) (b : Nat) (hb : b ≤ 0x7F) :
    decodeByte ⟨0, 0, 0x80, 0xBF, f⟩ b
      = (⟨0, 0, 0x80, 0xBF, false⟩, (stripBom f [Char.ofNat b]).2) := by
  simp only [decodeByte, decodeRaw, decodeFresh, if_pos hb]
  simp [stripBom_fst_single]

theorem decodeByte_lead2 (f : Bool) (b : Nat) (hb : 0xC2 ≤ b ∧ b ≤ 0xDF) :
    decodeByte ⟨0, 0, 0x80, 0xBF, f⟩ b = (⟨b % 32, 1, 0x80, 0xBF, f⟩, []) := by
  have h1 : ¬ b ≤ 0x7F := by omega
  simp only [decodeByte, decodeRaw, decodeFresh, if_neg h1, if_pos hb]
  cases f <;> simp [stripBom]

theorem decodeByte_lead3 (f : Bool) (b : Nat) (hb : 0xE0 ≤ b ∧ b ≤ 0xEF) :
    decodeByte ⟨0, 0, 0x80, 0xBF, f⟩ b
      = (⟨b % 16, 2, if b = 0xE0 then 0xA0 else 0x80,
          if b = 0xED then 0x9F else 0xBF, f⟩, []) := by
  have h1 : ¬ b ≤ 0x7F := by omega
  have h2 : ¬ (0xC2 ≤ b ∧ b ≤ 0xDF) := by omega
  simp only [decodeByte, decodeRaw, decodeFresh, if_neg h1, if_neg h2, if_pos hb]
  cases f <;> simp [stripBom]

theorem decodeByte_lead4 (f : Bool) (b : Nat) (hb : 0xF0 ≤ b ∧ b ≤ 0xF4) :
    decodeByte ⟨0, 0, 0x80, 0xBF, f⟩ b
      = (⟨b % 8, 3, if b = 0xF0 then 0x90 else 0x80,
          if b = 0xF4 then 0x8F else 0xBF, f⟩, []) := by
  have h1 : ¬ b ≤ 0x7F := by omega
  have h2 : ¬ (0xC2 ≤ b ∧ b ≤ 0xDF) := by omega
  have h3 : ¬ (0xE0 ≤ b ∧ b ≤ 0xEF) := by omega
  simp only [decodeByte, decodeRaw, decodeFresh, if_neg h1, if_neg h2, if_neg h3, if_pos hb]
  cases f <;> simp [stripBom]

theorem decodeByte_cont_more (f : Bool) (b cp k lo hi : Nat) (hk : k ≠ 0) (hk1 : k ≠ 1)
    (hb : lo ≤ b ∧ b ≤ hi) :
    decodeByte ⟨cp, k, lo, hi, f⟩ b = (⟨cp * 64 + b % 64, k - 1, 0x80, 0xBF, f⟩, []) := by
  simp only [decodeByte, decodeRaw, if_neg hk, if_pos hb, if_neg hk1]
  cases f <;> simp [stripBom]

theorem decodeByte_cont_last (f : Bool) (b cp lo hi : Nat) (hb : lo ≤ b ∧ b ≤ hi) :
    decodeByte ⟨cp, 1, lo, hi, f⟩ b
      = (⟨0, 0, 0x80, 0xBF, false⟩, (stripBom f [Char.ofNat (cp * 64 + b % 64)]).2) := by
  have hk : (1 : Nat) ≠ 0 := one_ne_zero
  simp only [decodeByte, decodeRaw, if_neg hk, if_pos hb, if_pos rfl]
  simp [stripBom_fst_single]

/-- Decoding the encoding of one scalar value from a clean decoder state
yields exactly that character (run through the BOM layer). -/
theorem decodeChunk_encodeChar (f : Bool) (c : Char) :
    decodeChunk ⟨0, 0, 0x80, 0xBF, f⟩ (utf8EncodeChar c) =
      (⟨0, 0, 0x80, 0xBF, false⟩, (stripBom f [c]).2) := by
  have hval : c.toNat < 55296 ∨ 57343 < c.toNat ∧ c.toNat < 1114112 := c.valid
  have hofn : Char.ofNat c.toNat = c := Char.ofNat_toNat c
  set n := c.toNat with hn
  by_cases h1 : n ≤ 0x7F
  · rw [show utf8EncodeChar c = [n] by rw [utf8EncodeChar, ← hn, if_pos h1]]
    simp only [decodeChunk, decodeByte_ascii f n h1, hofn]
    simp
  · by_cases h2 : n ≤ 0x7FF
    · rw [show utf8EncodeChar c = [0xC0 + n / 64, 0x80 + n % 64] by
        rw [utf8EncodeChar, ← hn, if_neg h1, if_pos h2]]
      have hb1 : 0xC2 ≤ 0xC0 + n / 64 ∧ 0xC0 + n / 64 ≤ 0xDF := by omega
      have hb2 : (0x80 : Nat) ≤ 0x80 + n % 64 ∧ 0x80 + n % 64 ≤ 0xBF := by omega
      simp only [decodeChunk, decodeByte_lead2 f _ hb1,
        decodeByte_cont_last f _ _ _ _ hb2]
      have : (0xC0 + n / 64) % 32 * 64 + (0x80 + n % 64) % 64 = n := by omega
      rw [this, hofn]
      simp
    · by_cases h3 : n ≤ 0xFFFF
      · rw [show utf8EncodeChar c = [0xE0 + n / 4096, 0x80 + n / 64 % 64, 0x80 + n % 64] by
          rw [utf8EncodeChar, ← hn, if_neg h1, if_neg h2, if_pos h3]]
        have hb1 : 0xE0 ≤ 0xE0 + n / 4096 ∧ 0xE0 + n / 4096 ≤ 0xEF := by omega
        have hb2 : (if 0xE0 + n / 4096 = 0xE0 then 0xA0 else (0x80 : Nat)) ≤ 0x80 + n / 64 % 64
            ∧ 0x80 + n / 64 % 64 ≤ (if 0xE0 + n / 4096 = 0xED then 0x9F else 0xBF) := by
          constructor
          · split
            · -- leading byte 0xE0 forces the second byte ≥ 0xA0 (n ≥ 0x800)
              omega
            · omega
          · split
            · -- leading byte 0xED: n < 0xD800 because surrogates are not scalar values
              omega
            · omega
        have hb3 : (0x80 : Nat) ≤ 0x80 + n % 64 ∧ 0x80 + n % 64 ≤ 0xBF := by omega
        simp only [decodeChunk, decodeByte_lead3 f _ hb1,
          decodeByte_cont_more f _ _ 2 _ _ (by omega) (by omega) hb2,
          decodeByte_cont_last f _ _ _ _ hb3]
        have : ((0xE0 + n / 4096) % 16 * 64 + (0x80 + n / 64 % 64) % 64) * 64
            + (0x80 + n % 64) % 64 = n := by omega
        rw [this, hofn]
        simp
      · rw [show utf8EncodeChar c
            = [0xF0 + n / 0x40000, 0x80 + n / 4096 % 64, 0x80 + n / 64 % 64, 0x80 + n % 64] by
          rw [utf8EncodeChar, ← hn, if_neg h1, if_neg h2, if_neg h3]]
        have hb1 : 0xF0 ≤ 0xF0 + n / 0x40000 ∧ 0xF0 + n / 0x40000 ≤ 0xF4 := by omega
        have hb2 : (if 0xF0 + n / 0x40000 = 0xF0 then 0x90 else (0x80 : Nat))
              ≤ 0x80 + n / 4096 % 64
            ∧ 0x80 + n / 4096 % 64 ≤ (if 0xF0 + n / 0x40000 = 0xF4 then 0x8F else 0xBF) := by
          constructor
          · split
            · omega
            · omega
          · split
            · omega
            · omega
        have hb3 : (0x80 : Nat) ≤ 0x80 + n / 64 % 64 ∧ 0x80 + n / 64 % 64 ≤ 0xBF := by omega
        have hb4 : (0x80 : Nat) ≤ 0x80 + n % 64 ∧ 0x80 + n % 64 ≤ 0xBF := by omega
        simp only [decodeChunk, decodeByte_lead4 f _ hb1,
          decodeByte_cont_more f _ _ 3 _ _ (by omega) (by omega) hb2,
          decodeByte_cont_more f _ _ 2 _ _ (by omega) (by omega) hb3,
          decodeByte_cont_last f _ _ _ _ hb4]
        have : (((0xF0 + n / 0x40000) % 8 * 64 + (0x80 + n / 4096 % 64) % 64) * 64
              + (0x80 + n / 64 % 64) % 64) * 64 + (0x80 + n % 64) % 64 = n := by omega
        rw [this, hofn]
        simp

/-- Decoding an encoded string from a clean mid-stream state recovers it. -/
theorem decodeChunk_encode_mid (s : List Char) :
    decodeChunk ⟨0, 0, 0x80, 0xBF, false⟩ (utf8Encode s)
      = (⟨0, 0, 0x80, 0xBF, false⟩, s) := by
  induction s with
  | nil => simp [utf8Encode, decodeChunk]
  | cons c cs ih =>
    have : utf8Encode (c :: cs) = utf8EncodeChar c ++ utf8Encode cs := by
      simp [utf8Encode]
    rw [this, decodeChunk_append, decodeChunk_encodeChar false c]
    simp [stripBom, ih]

/-- Decoding an encoded string from the initial decoder state recovers it,
provided it does not start with U+FEFF (which the BOM layer would strip). -/
theorem decodeChunk_encode_start (c : Char) (s : List Char) (hc : c ≠ '﻿') :
    decodeChunk utf8Init (utf8Encode (c :: s))
      = (⟨0, 0, 0x80, 0xBF, false⟩, c :: s) := by
  have : utf8Encode (c :: s) = utf8EncodeChar c ++ utf8Encode s := by
    simp [utf8Encode]
  rw [this, utf8Init, decodeChunk_append, decodeChunk_encodeChar true c]
  simp [stripBom, hc, decodeChunk_encode_mid s]

/-! ## JSON — the subset of JavaScript `JSON.parse` / `JSON.stringify`
semantics the two sides rely on.

Numbers are kept as their literal character sequence: nothing in the
application observes a numeric value other than through JavaScript
truthiness, which is modelled syntactically on the mantissa (the float64
underflow of astronomically small exponents to `0` is not modelled; no
claim depends on it). -/

inductive Json where
  | null
  | bool (b : Bool)
  | num (lit : List Char)
  | str (s : List Char)
  | arr (elements : List Json)
  | obj (fields : List (List Char × Json))
deriving Repr

/-- JSON whitespace (space, tab, line feed, carriage return). -/
def jsonWs (c : Char) : Bool := c == ' ' || c == '\t' || c == '\n' || c == '\r'

def skipWs (cs : List Char) : List Char := cs.dropWhile jsonWs

def hexVal (c : Char) : Option Nat :=
  if '0' ≤ c ∧ c ≤ '9' then some (c.toNat - 48)
  else if 'a' ≤ c ∧ c ≤ 'f' then some (c.toNat - 87)
  else if 'A' ≤ c ∧ c ≤ 'F' then some (c.toNat - 55)
  else none

/-- Value of a four-hex-digit escape `\uXXXX`. -/
def hex4 (a b c d : Char) : Option Nat :=
  match hexVal a, hexVal b, hexVal c, hexVal d with
  | some va, some vb, some vc, some vd => some (((va * 16 + vb) * 16 + vc) * 16 + vd)
  | _, _, _, _ => none

/-- Body of a JSON string literal, after the opening quote.  JavaScript
strings are UTF-16, so a `\uXXXX` high surrogate followed by an escaped low
surrogate denotes one astral scalar value; a lone surrogate (which cannot be
a Unicode scalar value) is modelled as U+FFFD. -/
def parseStr : Nat → List Char → Option (List Char × List Char)
  | 0, _ => none
  | _, [] => none
  | fuel + 1, c :: rest =>
    if c = '"' then some ([], rest)
    else if c = '\\' then
      match rest with
      | [] => none
      | e :: rest2 =>
        if e = '"' then (parseStr fuel rest2).map (fun r => ('"' :: r.1, r.2))
        else if e = '\\' then (parseStr fuel rest2).map (fun r => ('\\' :: r.1, r.2))
        else if e = '/' then (parseStr fuel rest2).map (fun r => ('/' :: r.1, r.2))
        else if e = 'b' then (parseStr fuel rest2).map (fun r => ('\x08' :: r.1, r.2))
        else if e = 'f' then (parseStr fuel rest2).map (fun r => ('\x0c' :: r.1, r.2))
        else if e = 'n' then (parseStr fuel rest2).map (fun r => ('\n' :: r.1, r.2))
        else if e = 'r' then (parseStr fuel rest2).map (fun r => ('\x0d' :: r.1, r.2))
        else if e = 't' then (parseStr fuel rest2).map (fun r => ('\t' :: r.1, r.2))
        else if e = 'u' then
          match rest2 with
          | d1 :: d2 :: d3 :: d4 :: rest3 =>
            match hex4 d1 d2 d3 d4 with
            | none => none
            | some v =>
              if v < 0xD800 ∨ 0xDFFF < v then
                (parseStr fuel rest3).map (fun r => (Char.ofNat v :: r.1, r.2))
              else if 0xDC00 ≤ v then
                (parseStr fuel rest3).map (fun r => ('�' :: r.1, r.2))
              else
                match rest3 with
                | '\\' :: 'u' :: g1 :: g2 :: g3 :: g4 :: rest4 =>
                  (match hex4 g1 g2 g3 g4 with
                   | some w =>
                     if 0xDC00 ≤ w ∧ w ≤ 0xDFFF then
                       (parseStr fuel rest4).map (fun r =>
                         (Char.ofNat (0x10000 + (v - 0xD800) * 1024 + (w - 0xDC00)) :: r.1,
                           r.2))
                     else (parseStr fuel rest3).map (fun r => ('�' :: r.1, r.2))
                   | none => (parseStr fuel rest3).map (fun r => ('�' :: r.1, r.2)))
                | _ => (parseStr fuel rest3).map (fun r => ('�' :: r.1, r.2))
          | _ => none
        else none
    else if 0x20 ≤ c.toNat then (parseStr fuel rest).map (fun r => (c :: r.1, r.2))
    else none

/-- Optional fraction part of a JSON number. -/
def parseFrac (cs : List Char) : List Char × List Char :=
  match cs with
  | '.' :: r =>
    let ds := r.takeWhile Char.isDigit
    if ds.isEmpty then ([], cs) else ('.' :: ds, r.drop ds.length)
  | _ => ([], cs)

/-- Optional exponent part of a JSON number. -/
def parseExp (cs : List Char) : List Char × List Char :=
  match cs with
  | e :: r =>
    if e = 'e' ∨ e = 'E' then
      let sr := (match r with
        | '+' :: r2 => ((['+'] : List Char), r2)
        | '-' :: r2 => (['-'], r2)
        | _ => ([], r))
      let ds := sr.2.takeWhile Char.isDigit
      if ds.isEmpty then ([], cs) else (e :: (sr.1 ++ ds), sr.2.drop ds.length)
    else ([], cs)
  | [] => ([], cs)

/-- A JSON number literal (kept as its raw characters). -/
def parseNum (cs : List Char) : Option (List Char × List Char) :=
  let nr := (match cs with
    | '-' :: r => ((['-'] : List Char), r)
    | _ => ([], cs))
  let intRes : Option (List Char × List Char) := (match nr.2 with
    | '0' :: r => some (['0'], r)
    | c :: r =>
      if c.isDigit then
        some (c :: r.takeWhile Char.isDigit, r.drop (r.takeWhile Char.isDigit).length)
      else none
    | [] => none)
  match intRes with
  | none => none
  | some (ip, r1) =>
    let fr := parseFrac r1
    let er := parseExp fr.2
    some (nr.1 ++ ip ++ fr.1 ++ er.1, er.2)

/-- Recursion frames of the JSON value grammar: a value, the remaining
elements of an array, or the remaining members of an object. -/
inductive ParseFrame where
  | value
  | elems (acc : List Json)
  | members (acc : List (List Char × Json))

/-- Fuelled recursive-descent JSON reader (`JSON.parse` grammar). -/
def parseJ : Nat → ParseFrame → List Char → Option (Json × List Char)
  | 0, _, _ => none
  | fuel + 1, ParseFrame.value, cs =>
    let cs1 := skipWs cs
    match cs1 with
    | [] => none
    | c :: rest =>
      if c = '"' then (parseStr (rest.length + 1) rest).map (fun r => (Json.str r.1, r.2))
      else if c = '\x7b' then
        let r1 := skipWs rest
        match r1 with
        | '\x7d' :: r2 => some (Json.obj [], r2)
        | _ => parseJ fuel (ParseFrame.members []) r1
      else if c = '[' then
        let r1 := skipWs rest
        match r1 with
        | ']' :: r2 => some (Json.arr [], r2)
        | _ => parseJ fuel (ParseFrame.elems []) r1
      else if c = 't' then
        if "rue".data.isPrefixOf rest then some (Json.bool true, rest.drop 3) else none
      else if c = 'f' then
        if "alse".data.isPrefixOf rest then some (Json.bool false, rest.drop 4) else none
      else if c = 'n' then
        if "ull".data.isPrefixOf rest then some (Json.null, rest.drop 3) else none
      else (parseNum cs1).map (fun r => (Json.num r.1, r.2))
  | fuel + 1, ParseFrame.elems acc, cs =>
    match parseJ fuel ParseFrame.value cs with
    | none => none
    | some (v, rest) =>
      match skipWs rest with
      | ',' :: r2 => parseJ fuel (ParseFrame.elems (acc ++ [v])) r2
      | ']' :: r2 => some (Json.arr (acc ++ [v]), r2)
      | _ => none
  | fuel + 1, ParseFrame.members acc, cs =>
    match cs with
    | '"' :: rest =>
      (match parseStr (rest.length + 1) rest with
       | none => none
       | some (k, r1) =>
         match skipWs r1 with
         | ':' :: r2 =>
           (match parseJ fuel ParseFrame.value r2 with
            | none => none
            | some (v, r3) =>
              match skipWs r3 with
              | ',' :: r4 => parseJ fuel (ParseFrame.members (acc ++ [(k, v)])) (skipWs r4)
              | '\x7d' :: r4 => some (Json.obj (acc ++ [(k, v)]), r4)
              | _ => none)
         | _ => none)
    | _ => none

/-- `JSON.parse`: parse a complete JSON text (throwing modelled as `none`).
The fuel is an upper bound on recursion steps, ample for any input. -/
def jsonParse (cs : List Char) : Option Json :=
  match parseJ (3 * cs.length + 3) ParseFrame.value cs with
  | some (j, rest) => if (skipWs rest).isEmpty then some j else none
  | none => none

def hexDigit (k : Nat) : Char := "0123456789abcdef".data.getD k '0'

/-- Escaping of one character in `JSON.stringify` string output. -/
def escapeChar (c : Char) : List Char :=
  if c = '"' then ['\\', '"']
  else if c = '\\' then ['\\', '\\']
  else if c = '\x08' then ['\\', 'b']
  else if c = '\t' then ['\\', 't']
  else if c = '\n' then ['\\', 'n']
  else if c = '\x0c' then ['\\', 'f']
  else if c = '\x0d' then ['\\', 'r']
  else if c.toNat < 0x20 then ['\\', 'u', '0', '0', hexDigit (c.toNat / 16), hexDigit (c.toNat % 16)]
  else [c]

/-- `JSON.stringify` applied to a string value. -/
def jsonQuote (s : List Char) : List Char := '"' :: (s.map escapeChar).flatten ++ ['"']

/-- JavaScript property lookup `j.k` for a parsed JSON value: only objects
have own data properties here; `JSON.parse` keeps the last of duplicate
keys, hence the reverse lookup. -/
def jsGetField (j : Json) (k : List Char) : Option Json :=
  match j with
  | Json.obj fields => (fields.reverse.find? (fun f => f.1 == k)).map (fun f => f.2)
  | _ => none

/-- Syntactic zero test on a number literal's mantissa. -/
def jsMantissaNonzero (lit : List Char) : Bool :=
  (lit.takeWhile (fun c => !(c == 'e' || c == 'E'))).any
    (fun c => decide ('1' ≤ c) && decide (c ≤ '9'))

/-- JavaScript truthiness of a parsed JSON value. -/
def jsTruthy : Json → Bool
  | Json.null => false
  | Json.bool b => b
  | Json.num lit => jsMantissaNonzero lit
  | Json.str s => !s.isEmpty
  | Json.arr _ => true
  | Json.obj _ => true

def jsTruthyOpt : Option Json → Bool
  | none => false
  | some j => jsTruthy j

/-- JavaScript `String(v)` coercion for parsed JSON values (fuelled for the
array case, which stringifies elements recursively and joins with commas;
numbers approximate float formatting by their literal text — no claim
observes this case). -/
def jsToStringF : Nat → Json → List Char
  | _, Json.str s => s
  | _, Json.num lit => lit
  | _, Json.bool true => "true".data
  | _, Json.bool false => "false".data
  | _, Json.null => "null".data
  | _, Json.obj _ => "[object Object]".data
  | 0, Json.arr _ => []
  | fuel + 1, Json.arr els =>
    List.intercalate [','] (els.map (fun e => match e with
      | Json.null => []
      | e => jsToStringF fuel e))

mutual
/-- Structural size of a JSON value, used as ample fuel for `jsToStringF`. -/
def jsonSize : Json → Nat
  | Json.null => 1
  | Json.bool _ => 1
  | Json.num _ => 1
  | Json.str _ => 1
  | Json.arr els => 1 + jsonSizeList els
  | Json.obj fields => 1 + jsonSizeFields fields
def jsonSizeList : List Json → Nat
  | [] => 0
  | j :: js => jsonSize j + jsonSizeList js
def jsonSizeFields : List (List Char × Json) → Nat
  | [] => 0
  | f :: fs => jsonSize f.2 + jsonSizeFields fs
end

def jsToString (j : Json) : List Char := jsToStringF (jsonSize j) j

/-! ## Stream Consumer — the read loop of `sendMessage` in `App.tsx`

State per streaming request: the `TextDecoder`, the growable string
`buffer`, and the React `messages` state.  Each chunk read is decoded with
`{ stream: true }`, appended to the buffer, the buffer is split on
`'\n\n'`, the last part is retained as the new buffer, and every complete
part is processed as an SSE frame. -/

def dataTag : List Char := "data: ".data
def doneLit : List Char := "[DONE]".data
def errorLabel : List Char := "エラー: ".data

/-- The whitespace set of JavaScript `String.prototype.trim` (WhiteSpace and
LineTerminator code points). -/
def isJsSpace (c : Char) : Bool :=
  c == ' ' || c == '\t' || c == '\n' || c == '\r' || c == '\x0b' || c == '\x0c' ||
  c == ' ' || c == ' ' ||
  (decide (0x2000 ≤ c.toNat) && decide (c.toNat ≤ 0x200A)) ||
  c == ' ' || c == ' ' || c == ' ' || c == ' ' ||
  c == '　' || c == '﻿'

/-- JavaScript `s.trim()`. -/
def jsTrim (l : List Char) : List Char :=
  ((l.dropWhile isJsSpace).reverse.dropWhile isJsSpace).reverse

/-- Effect of the `parsed.text` branch: append to the last message if it is
an assistant message (`lastMsg?.role === 'assistant'`), else no-op. -/
def appendDelta (msgs : List Message) (v : Json) : List Message :=
  match msgs.getLast? with
  | some lastMsg =>
    if lastMsg.role = Role.assistant then
      msgs.dropLast ++ [{ lastMsg with content := lastMsg.content ++ jsToString v }]
    else msgs
  | none => msgs

/-- Effect of the `parsed.error` branch: replace the last message with an
assistant message carrying the error-prefixed text. -/
def setError (msgs : List Message) (v : Json) : List Message :=
  msgs.dropLast ++ [⟨Role.assistant, errorLabel ++ jsToString v⟩]

/-- Processing of one complete SSE frame by the client (the body of the
`for (const part of parts)` loop).  A `JSON.parse` failure — and any
JavaScript `TypeError` raised by accessing `.text` on `null` — is caught by
the surrounding `try`, leaving the messages unchanged. -/
def processFrame (msgs : List Message) (part : List Char) : List Message :=
  let line := jsTrim part
  if dataTag.isPrefixOf line then
    let d := line.drop 6
    if d = doneLit then msgs
    else
      match jsonParse d with
      | none => msgs
      | some parsed =>
        let m1 := (match jsGetField parsed "text".data with
          | some v => if jsTruthy v then appendDelta msgs v else msgs
          | none => msgs)
        match jsGetField parsed "error".data with
        | some v => if jsTruthy v then setError m1 v else m1
        | none => m1
  else msgs

/-- Full client-side state of one streaming read loop. -/
structure ConsumerState where
  dec : DecState
  buffer : List Char
  messages : List Message
deriving Repr

/-- One iteration of the `while (true)` read loop for a received chunk. -/
def stepChunk (st : ConsumerState) (chunk : List Nat) : ConsumerState :=
  let dr := decodeChunk st.dec chunk
  let parts := jsSplitNN (st.buffer ++ dr.2)
  { dec := dr.1
    buffer := (parts.getLast?).getD []
    messages := parts.dropLast.foldl processFrame st.messages }

/-- The whole read loop: fold over the chunks delivered by the transport;
when `done` is reached the remaining buffer and decoder state are dropped. -/
def runConsumer (st : ConsumerState) (chunks : List (List Nat)) : ConsumerState :=
  chunks.foldl stepChunk st

/-- Initial state: fresh `TextDecoder`, empty buffer, current messages. -/
def initConsumer (msgs : List Message) : ConsumerState := ⟨utf8Init, [], msgs⟩

theorem stepChunk_scan (st : ConsumerState) (chunk : List Nat) :
    stepChunk st chunk =
      { dec := (decodeChunk st.dec chunk).1
        buffer := (scanNN (st.buffer ++ (decodeChunk st.dec chunk).2)).2
        messages := (scanNN (st.buffer ++ (decodeChunk st.dec chunk).2)).1.foldl
          processFrame st.messages } := by
  rw [stepChunk]
  have h := jsSplitNN_eq_scanNN (st.buffer ++ (decodeChunk st.dec chunk).2)
  rw [h]
  simp [List.dropLast_concat]

/-- Chunk-boundary invariance at the level of a single step. -/
theorem stepChunk_assoc (st : ConsumerState) (c1 c2 : List Nat) :
    stepChunk (stepChunk st c1) c2 = stepChunk st (c1 ++ c2) := by
  rw [stepChunk_scan st c1, stepChunk_scan, stepChunk_scan st (c1 ++ c2)]
  rw [decodeChunk_append st.dec c1 c2]
  have hs := scanNN_append (st.buffer ++ (decodeChunk st.dec c1).2)
    ((decodeChunk (decodeChunk st.dec c1).1 c2).2)
  simp only []
  rw [show st.buffer ++ ((decodeChunk st.dec c1).2
        ++ (decodeChunk (decodeChunk st.dec c1).1 c2).2)
      = (st.buffer ++ (decodeChunk st.dec c1).2)
        ++ (decodeChunk (decodeChunk st.dec c1).1 c2).2 by simp]
  rw [hs]
  simp [List.foldl_append]

theorem runConsumer_cons_join (st : ConsumerState) (c : List Nat)
    (chunks : List (List Nat)) :
    runConsumer st (c :: chunks) = stepChunk st (c ++ chunks.flatten) := by
  induction chunks generalizing st c with
  | nil => simp [runConsumer]
  | cons c2 cs ih =>
    have : runConsumer st (c :: c2 :: cs) = runConsumer (stepChunk st c) (c2 :: cs) := by
      simp [runConsumer]
    rw [this, ih, stepChunk_assoc]
    simp

/-! ## Stream Handler — the serverless `handler` functions

The streaming handler iterates `agent.stream(message)` and forwards only
model text deltas; the legacy handler only supports `agent.invoke`.  The
agent itself is an external collaborator: its behaviour during one request
is modelled as data (which events the stream yields and whether iteration
or invocation throws). -/

/-- The delta payload of a `modelContentBlockDeltaEvent`. -/
inductive Delta where
  | textDelta (text : List Char)
  | otherDelta
deriving Repr

/-- An event of the agent's internal event union.  Only
`modelContentBlockDeltaEvent` with a `textDelta` payload is consumed;
everything else is bundled into `otherEvent`. -/
inductive AgentEvent where
  | modelContentBlockDeltaEvent (delta : Delta)
  | otherEvent
deriving Repr

/-- Outcome of iterating `agent.stream(message)`: either the iteration
completes after yielding `events`, or it throws after yielding them. -/
inductive StreamRun where
  | completed (events : List AgentEvent)
  | failed (events : List AgentEvent)
deriving Repr

/-- Behaviour of the agent collaborator for one request:
`invoked = none` models `agent.invoke` throwing, otherwise it returns a
result whose `lastMessage?.content` is the contained optional value
(`none` models `undefined`). -/
structure AgentBehavior where
  streamed : StreamRun
  invoked : Option (Option Json)

/-- The serialized text frame `data: ${JSON.stringify({text})}\n\n`. -/
def textPayload (t : List Char) : List Char :=
  "\x7b\"text\":".data ++ jsonQuote t ++ ['\x7d']

def sseDataWrite (payload : List Char) : List Char :=
  dataTag ++ payload ++ ['\n', '\n']

def doneWrite : List Char := "data: [DONE]\n\n".data

/-- The serialized error frame `data: ${JSON.stringify({error:'ストリームエラー'})}\n\n`. -/
def errorPayload : List Char :=
  "\x7b\"error\":".data ++ jsonQuote "ストリームエラー".data ++ ['\x7d']

/-- The per-event body of the `for await` loop: one whole `res.write` for a
text delta, nothing for any other event kind. -/
def eventWrite : AgentEvent → Option (List Char)
  | AgentEvent.modelContentBlockDeltaEvent (Delta.textDelta t) =>
    some (sseDataWrite (textPayload t))
  | _ => none

/-- An HTTP request as the handler sees it: `req.method` and the parsed
`req.body` (`none` models an absent/undefined body, `some Json.null` a
literal `null` body). -/
structure HttpRequest where
  method : List Char
  body : Option Json

/-- What the handler does with the response object: an
`res.status(s).json(b)` reply, a streamed SSE response (the list of
`res.write` payloads, and whether `res.end()` was called), or an uncaught
JavaScript exception escaping the handler. -/
inductive HandlerResult where
  | response (status : Nat) (body : Json)
  | sseResponse (writes : List (List Char)) (closed : Bool)
  | jsFault
deriving Repr

/-- `const { message, stream } = req.body` throws a `TypeError` unless the
body is neither `undefined` nor `null`. -/
def destructurable : Option Json → Bool
  | none => false
  | some Json.null => false
  | some _ => true

def jsProp (b : Option Json) (k : List Char) : Option Json :=
  match b with
  | none => none
  | some j => jsGetField j k

def isStringOpt : Option Json → Bool
  | some (Json.str _) => true
  | _ => false

def errorBody (msg : List Char) : Json := Json.obj [("error".data, Json.str msg)]

/-- The streaming `handler` of the unnamed api source file. -/
def handler (req : HttpRequest) (agent : AgentBehavior) : HandlerResult :=
  if req.method ≠ "POST".data then
    HandlerResult.response 405 (errorBody "Method not allowed".data)
  else if ¬ destructurable req.body then HandlerResult.jsFault
  else
    let message := jsProp req.body "message".data
    let stream := jsProp req.body "stream".data
    if !jsTruthyOpt message || !isStringOpt message then
      HandlerResult.response 400 (errorBody "message is required".data)
    else if jsTruthyOpt stream then
      match agent.streamed with
      | StreamRun.completed evs =>
        HandlerResult.sseResponse (evs.filterMap eventWrite ++ [doneWrite]) true
      | StreamRun.failed evs =>
        HandlerResult.sseResponse
          (evs.filterMap eventWrite ++ [sseDataWrite errorPayload]) true
    else
      match agent.invoked with
      | none => HandlerResult.response 500 (errorBody "Internal server error".data)
      | some content =>
        HandlerResult.response 200
          (match content with
           | some c => Json.obj [("response".data, c)]
           | none => Json.obj [])

/-- The legacy `handler` of `api/agent.ts`: no streaming, and the body
destructuring sits inside the `try`, so a `null`/absent body becomes a 500
instead of an uncaught exception. -/
def handlerLegacy (req : HttpRequest) (agent : AgentBehavior) : HandlerResult :=
  if req.method ≠ "POST".data then
    HandlerResult.response 405 (errorBody "Method not allowed".data)
  else if ¬ destructurable req.body then
    HandlerResult.response 500 (errorBody "Internal server error".data)
  else
    let message := jsProp req.body "message".data
    if !jsTruthyOpt message || !isStringOpt message then
      HandlerResult.response 400 (errorBody "message is required".data)
    else
      match agent.invoked with
      | none => HandlerResult.response 500 (errorBody "Internal server error".data)
      | some content =>
        HandlerResult.response 200
          (match content with
           | some c => Json.obj [("response".data, c)]
           | none => Json.obj [])

/-- Texts of the model text-delta events, in order. -/
def deltaTexts (events : List AgentEvent) : List (List Char) :=
  events.filterMap (fun e => match e with
    | AgentEvent.modelContentBlockDeltaEvent (Delta.textDelta t) => some t
    | _ => none)

theorem filterMap_eventWrite (events : List AgentEvent) :
    events.filterMap eventWrite
      = (deltaTexts events).map (fun t => sseDataWrite (textPayload t)) := by
  induction events with
  | nil => simp [deltaTexts]
  | cons e es ih =>
    cases e with
    | modelContentBlockDeltaEvent d =>
      cases d with
      | textDelta t => simp [deltaTexts, eventWrite, List.filterMap_cons, ih]
      | otherDelta => simp [deltaTexts, eventWrite, List.filterMap_cons, ih]
    | otherEvent => simp [deltaTexts, eventWrite, List.filterMap_cons, ih]

/-! ## Round trip: the client's `JSON.parse` recovers what the server's
`JSON.stringify` produced. -/

theorem hexVal_hexDigit : ∀ k, k < 16 → hexVal (hexDigit k) = some k := by decide

theorem escapeChar_length_pos (c : Char) : 0 < (escapeChar c).length := by
  unfold escapeChar
  split_ifs <;> simp

theorem length_le_flatten_escape (t : List Char) :
    t.length ≤ ((t.map escapeChar).flatten).length := by
  induction t with
  | nil => simp
  | cons c t' ih =>
    simp only [List.map_cons, List.flatten_cons, List.length_append, List.length_cons]
    have := escapeChar_length_pos c
    omega

theorem parseStr_quote (f : Nat) (rest : List Char) :
    parseStr (f + 1) ('"' :: rest) = some ([], rest) := rfl

theorem parseStr_esc_quote (f : Nat) (rest : List Char) :
    parseStr (f + 1) ('\\' :: '"' :: rest)
      = (parseStr f rest).map (fun r => ('"' :: r.1, r.2)) := rfl

theorem parseStr_esc_bslash (f : Nat) (rest : List Char) :
    parseStr (f + 1) ('\\' :: '\\' :: rest)
      = (parseStr f rest).map (fun r => ('\\' :: r.1, r.2)) := rfl

theorem parseStr_esc_b (f : Nat) (rest : List Char) :
    parseStr (f + 1) ('\\' :: 'b' :: rest)
      = (parseStr f rest).map (fun r => ('\x08' :: r.1, r.2)) := rfl

theorem parseStr_esc_t (f : Nat) (rest : List Char) :
    parseStr (f + 1) ('\\' :: 't' :: rest)
      = (parseStr f rest).map (fun r => ('\t' :: r.1, r.2)) := rfl

theorem parseStr_esc_n (f : Nat) (rest : List Char) :
    parseStr (f + 1) ('\\' :: 'n' :: rest)
      = (parseStr f rest).map (fun r => ('\n' :: r.1, r.2)) := rfl

theorem parseStr_esc_f (f : Nat) (rest : List Char) :
    parseStr (f + 1) ('\\' :: 'f' :: rest)
      = (parseStr f rest).map (fun r => ('\x0c' :: r.1, r.2)) := rfl

theorem parseStr_esc_r (f : Nat) (rest : List Char) :
    parseStr (f + 1) ('\\' :: 'r' :: rest)
      = (parseStr f rest).map (fun r => ('\x0d' :: r.1, r.2)) := rfl

theorem parseStr_plain (f : Nat) (c : Char) (rest : List Char)
    (h1 : ¬ c = '"') (h2 : ¬ c = '\\') (h3 : 0x20 ≤ c.toNat) :
    parseStr (f + 1) (c :: rest)
      = (parseStr f rest).map (fun r => (c :: r.1, r.2)) := by
  show (if c = '"' then some (([] : List Char), rest)
    else if c = '\\' then
      match rest with
      | [] => none
      | e :: rest2 =>
        if e = '"' then (parseStr f rest2).map (fun (r : List Char × List Char) => ('"' :: r.1, r.2))
        else if e = '\\' then (parseStr f rest2).map (fun (r : List Char × List Char) => ('\\' :: r.1, r.2))
        else if e = '/' then (parseStr f rest2).map (fun (r : List Char × List Char) => ('/' :: r.1, r.2))
        else if e = 'b' then (parseStr f rest2).map (fun (r : List Char × List Char) => ('\x08' :: r.1, r.2))
        else if e = 'f' then (parseStr f rest2).map (fun (r : List Char × List Char) => ('\x0c' :: r.1, r.2))
        else if e = 'n' then (parseStr f rest2).map (fun (r : List Char × List Char) => ('\n' :: r.1, r.2))
        else if e = 'r' then (parseStr f rest2).map (fun (r : List Char × List Char) => ('\x0d' :: r.1, r.2))
        else if e = 't' then (parseStr f rest2).map (fun (r : List Char × List Char) => ('\t' :: r.1, r.2))
        else if e = 'u' then
          match rest2 with
          | d1 :: d2 :: d3 :: d4 :: rest3 =>
            match hex4 d1 d2 d3 d4 with
            | none => none
            | some v =>
              if v < 0xD800 ∨ 0xDFFF < v then
                (parseStr f rest3).map (fun (r : List Char × List Char) => (Char.ofNat v :: r.1, r.2))
              else if 0xDC00 ≤ v then
                (parseStr f rest3).map (fun (r : List Char × List Char) => ('�' :: r.1, r.2))
              else
                match rest3 with
                | '\\' :: 'u' :: g1 :: g2 :: g3 :: g4 :: rest4 =>
                  (match hex4 g1 g2 g3 g4 with
                   | some w =>
                     if 0xDC00 ≤ w ∧ w ≤ 0xDFFF then
                       (parseStr f rest4).map (fun (r : List Char × List Char) =>
                         (Char.ofNat (0x10000 + (v - 0xD800) * 1024 + (w - 0xDC00)) :: r.1,
                           r.2))
                     else (parseStr f rest3).map (fun (r : List Char × List Char) => ('�' :: r.1, r.2))
                   | none => (parseStr f rest3).map (fun (r : List Char × List Char) => ('�' :: r.1, r.2)))
                | _ => (parseStr f rest3).map (fun (r : List Char × List Char) => ('�' :: r.1, r.2))
          | _ => none
        else none
    else if 0x20 ≤ c.toNat then (parseStr f rest).map (fun (r : List Char × List Char) => (c :: r.1, r.2))
    else none) = (parseStr f rest).map (fun r => (c :: r.1, r.2))
  rw [if_neg h1, if_neg h2, if_pos h3]

theorem parseStr_u (f : Nat) (d1 d2 d3 d4 : Char) (v : Nat) (tail : List Char)
    (hv : hex4 d1 d2 d3 d4 = some v) (hok : v < 0xD800) :
    parseStr (f + 1) ('\\' :: 'u' :: d1 :: d2 :: d3 :: d4 :: tail)
      = (parseStr f tail).map (fun r => (Char.ofNat v :: r.1, r.2)) := by
  show (match hex4 d1 d2 d3 d4 with
    | none => none
    | some v =>
              if v < 0xD800 ∨ 0xDFFF < v then
                (parseStr f tail).map (fun (r : List Char × List Char) => (Char.ofNat v :: r.1, r.2))
              else if 0xDC00 ≤ v then
                (parseStr f tail).map (fun (r : List Char × List Char) => ('�' :: r.1, r.2))
              else
                match tail with
                | '\\' :: 'u' :: g1 :: g2 :: g3 :: g4 :: rest4 =>
                  (match hex4 g1 g2 g3 g4 with
                   | some w =>
                     if 0xDC00 ≤ w ∧ w ≤ 0xDFFF then
                       (parseStr f rest4).map (fun (r : List Char × List Char) =>
                         (Char.ofNat (0x10000 + (v - 0xD800) * 1024 + (w - 0xDC00)) :: r.1,
                           r.2))
                     else (parseStr f tail).map (fun (r : List Char × List Char) => ('�' :: r.1, r.2))
                   | none => (parseStr f tail).map (fun (r : List Char × List Char) => ('�' :: r.1, r.2)))
                | _ => (parseStr f tail).map (fun (r : List Char × List Char) => ('�' :: r.1, r.2))) = (parseStr f tail).map (fun r => (Char.ofNat v :: r.1, r.2))
  rw [hv]
  show (if v < 0xD800 ∨ 0xDFFF < v then
      (parseStr f tail).map (fun (r : List Char × List Char) => (Char.ofNat v :: r.1, r.2))
    else if 0xDC00 ≤ v then
      (parseStr f tail).map (fun (r : List Char × List Char) => ('�' :: r.1, r.2))
    else
      match tail with
      | '\\' :: 'u' :: g1 :: g2 :: g3 :: g4 :: rest4 =>
        (match hex4 g1 g2 g3 g4 with
         | some w =>
           if 0xDC00 ≤ w ∧ w ≤ 0xDFFF then
             (parseStr f rest4).map (fun (r : List Char × List Char) =>
               (Char.ofNat (0x10000 + (v - 0xD800) * 1024 + (w - 0xDC00)) :: r.1,
                 r.2))
           else (parseStr f tail).map (fun (r : List Char × List Char) => ('�' :: r.1, r.2))
         | none => (parseStr f tail).map (fun (r : List Char × List Char) => ('�' :: r.1, r.2)))
      | _ => (parseStr f tail).map (fun (r : List Char × List Char) => ('�' :: r.1, r.2))) = _
  rw [if_pos (Or.inl hok)]

theorem parseStr_escape (t : List Char) : ∀ (fuel : Nat) (rest : List Char),
    t.length < fuel →
    parseStr fuel ((t.map escapeChar).flatten ++ '"' :: rest) = some (t, rest) := by
  induction t with
  | nil =>
    intro fuel rest h
    cases fuel with
    | zero => omega
    | succ f =>
      simp only [List.map_nil, List.flatten_nil, List.nil_append]
      exact parseStr_quote f rest
  | cons c t' ih =>
    intro fuel rest h
    cases fuel with
    | zero => omega
    | succ f =>
      have ht' : t'.length < f := by
        simp only [List.length_cons] at h
        omega
      have ihr := ih f rest ht'
      by_cases h1 : c = '"'
      · subst h1
        simp only [List.map_cons, List.flatten_cons, List.cons_append, List.append_assoc, List.nil_append,
          show escapeChar '"' = ['\\', '"'] from rfl]
        rw [parseStr_esc_quote, ihr]
        rfl
      · by_cases h2 : c = '\\'
        · subst h2
          simp only [List.map_cons, List.flatten_cons, List.cons_append, List.append_assoc, List.nil_append,
            show escapeChar '\\' = ['\\', '\\'] from rfl]
          rw [parseStr_esc_bslash, ihr]
          rfl
        · by_cases h3 : c = '\x08'
          · subst h3
            simp only [List.map_cons, List.flatten_cons, List.cons_append, List.append_assoc, List.nil_append,
              show escapeChar '\x08' = ['\\', 'b'] from rfl]
            rw [parseStr_esc_b, ihr]
            rfl
          · by_cases h4 : c = '\t'
            · subst h4
              simp only [List.map_cons, List.flatten_cons, List.cons_append, List.append_assoc, List.nil_append,
                show escapeChar '\t' = ['\\', 't'] from rfl]
              rw [parseStr_esc_t, ihr]
              rfl
            · by_cases h5 : c = '\n'
              · subst h5
                simp only [List.map_cons, List.flatten_cons, List.cons_append,
                  List.append_assoc, List.nil_append, show escapeChar '\n' = ['\\', 'n'] from rfl]
                rw [parseStr_esc_n, ihr]
                rfl
              · by_cases h6 : c = '\x0c'
                · subst h6
                  simp only [List.map_cons, List.flatten_cons, List.cons_append,
                    List.append_assoc, List.nil_append, show escapeChar '\x0c' = ['\\', 'f'] from rfl]
                  rw [parseStr_esc_f, ihr]
                  rfl
                · by_cases h7 : c = '\x0d'
                  · subst h7
                    simp only [List.map_cons, List.flatten_cons, List.cons_append,
                      List.append_assoc, List.nil_append, show escapeChar '\x0d' = ['\\', 'r'] from rfl]
                    rw [parseStr_esc_r, ihr]
                    rfl
                  · by_cases h8 : c.toNat < 0x20
                    · -- generic control character, written `\u00XX`
                      have hd1 : hexVal (hexDigit (c.toNat / 16)) = some (c.toNat / 16) :=
                        hexVal_hexDigit _ (by omega)
                      have hd2 : hexVal (hexDigit (c.toNat % 16)) = some (c.toNat % 16) :=
                        hexVal_hexDigit _ (by omega)
                      have hv : hex4 '0' '0' (hexDigit (c.toNat / 16)) (hexDigit (c.toNat % 16))
                          = some c.toNat := by
                        unfold hex4
                        rw [show hexVal '0' = some 0 from rfl, hd1, hd2]
                        show some (((0 * 16 + 0) * 16 + c.toNat / 16) * 16 + c.toNat % 16)
                          = some c.toNat
                        congr 1
                        omega
                      simp only [List.map_cons, List.flatten_cons, escapeChar, if_neg h1,
                        if_neg h2, if_neg h3, if_neg h4, if_neg h5, if_neg h6, if_neg h7,
                        if_pos h8, List.cons_append, List.append_assoc, List.nil_append]
                      rw [parseStr_u f '0' '0' _ _ c.toNat _ hv (by omega), ihr]
                      simp [Char.ofNat_toNat]
                    · -- ordinary character, emitted unescaped
                      simp only [List.map_cons, List.flatten_cons, escapeChar, if_neg h1,
                        if_neg h2, if_neg h3, if_neg h4, if_neg h5, if_neg h6, if_neg h7,
                        if_neg h8, List.cons_append, List.singleton_append, List.nil_append]
                      rw [parseStr_plain f c _ h1 h2 (by omega), ihr]
                      rfl

theorem parseJ_value_str (f : Nat) (rest : List Char) :
    parseJ (f + 1) ParseFrame.value ('"' :: rest)
      = (parseStr (rest.length + 1) rest).map (fun r => (Json.str r.1, r.2)) := rfl

theorem parseJ_value_obj_str (f : Nat) (rest : List Char) :
    parseJ (f + 2) ParseFrame.value ('\x7b' :: '"' :: rest)
      = parseJ (f + 1) (ParseFrame.members []) ('"' :: rest) := rfl

theorem parseJ_members_str (f : Nat) (acc : List (List Char × Json)) (rest : List Char) :
    parseJ (f + 1) (ParseFrame.members acc) ('"' :: rest)
      = (match parseStr (rest.length + 1) rest with
         | none => none
         | some (k, r1) =>
           match skipWs r1 with
           | ':' :: r2 =>
             (match parseJ f ParseFrame.value r2 with
              | none => none
              | some (v, r3) =>
                match skipWs r3 with
                | ',' :: r4 => parseJ f (ParseFrame.members (acc ++ [(k, v)])) (skipWs r4)
                | '\x7d' :: r4 => some (Json.obj (acc ++ [(k, v)]), r4)
                | _ => none)
           | _ => none) := rfl

theorem parseJ_textPayload (f : Nat) (t : List Char) :
    parseJ (f + 3) ParseFrame.value (textPayload t)
      = some (Json.obj [("text".data, Json.str t)], []) := by
  have hshape : textPayload t
      = '\x7b' :: '"' :: 't' :: 'e' :: 'x' :: 't' :: '"' :: ':' :: '"' ::
        ((t.map escapeChar).flatten ++ '"' :: '\x7d' :: []) := by
    show ("\x7b\"text\":".data ++ jsonQuote t ++ ['\x7d']) = _
    rw [show "\x7b\"text\":".data
        = ['\x7b', '"', 't', 'e', 'x', 't', '"', ':'] from rfl]
    simp [jsonQuote]
  rw [hshape]
  rw [show (f + 3) = (f + 1) + 2 from rfl]
  rw [parseJ_value_obj_str]
  rw [parseJ_members_str]
  have hkey : ('t' :: 'e' :: 'x' :: 't' :: '"' :: ':' :: '"' ::
        ((t.map escapeChar).flatten ++ '"' :: '\x7d' :: []))
      = (("text".data.map escapeChar).flatten
          ++ '"' :: (':' :: '"' :: ((t.map escapeChar).flatten ++ '"' :: '\x7d' :: []))) := rfl
  rw [hkey]
  rw [parseStr_escape "text".data _ _ (by simp [List.length_append]; omega)]
  simp only []
  rw [show skipWs (':' :: '"' :: ((t.map escapeChar).flatten ++ '"' :: '\x7d' :: []))
      = ':' :: '"' :: ((t.map escapeChar).flatten ++ '"' :: '\x7d' :: []) from rfl]
  simp only []
  rw [parseJ_value_str]
  rw [parseStr_escape t _ _ (by
    have hle := length_le_flatten_escape t
    simp only [List.length_append] at hle ⊢
    omega)]
  rw [show Option.map (fun (r : List Char × List Char) => (Json.str r.1, r.2))
      (some (t, ['\x7d'])) = some (Json.str t, ['\x7d']) from rfl]
  simp [skipWs, jsonWs, List.dropWhile_cons]

theorem textPayload_cons (t : List Char) :
    textPayload t
      = '\x7b' :: '"' :: 't' :: 'e' :: 'x' :: 't' :: '"' :: ':' :: '"' ::
        ((t.map escapeChar).flatten ++ '"' :: '\x7d' :: []) := by
  show ("\x7b\"text\":".data ++ jsonQuote t ++ ['\x7d']) = _
  rw [show "\x7b\"text\":".data = ['\x7b', '"', 't', 'e', 'x', 't', '"', ':'] from rfl]
  simp [jsonQuote]

theorem jsonParse_textPayload (t : List Char) :
    jsonParse (textPayload t) = some (Json.obj [("text".data, Json.str t)]) := by
  unfold jsonParse
  rw [parseJ_textPayload (3 * (textPayload t).length) t]
  rfl

/-! ## Frame-level behaviour of the client on the frames this server emits. -/

theorem jsTrim_cons_concat (c d : Char) (mid : List Char)
    (hc : isJsSpace c = false) (hd : isJsSpace d = false) :
    jsTrim (c :: (mid ++ [d])) = c :: (mid ++ [d]) := by
  unfold jsTrim
  rw [List.dropWhile_cons, if_neg (by simp [hc])]
  rw [show (c :: (mid ++ [d])).reverse = d :: (mid.reverse ++ [c]) by simp]
  rw [List.dropWhile_cons, if_neg (by simp [hd])]
  simp

theorem escapeChar_no_nl (c : Char) : '\n' ∉ escapeChar c := by
  have hhex : ∀ k : Nat, hexDigit k ≠ '\n' := by
    intro k
    unfold hexDigit
    rcases Nat.lt_or_ge k 16 with hk | hk
    · interval_cases k <;> decide
    · rw [List.getD_eq_default]
      · decide
      · simpa using hk
  unfold escapeChar
  split_ifs with h1 h2 h3 h4 h5 h6 h7 h8
  · decide
  · decide
  · decide
  · decide
  · -- c = '\n' is escaped as `\n`, two characters neither of which is a newline
    decide
  · decide
  · decide
  · intro hmem
    simp only [List.mem_cons, List.not_mem_nil, or_false] at hmem
    rcases hmem with h | h | h | h | h | h
    · exact absurd h.symm (by decide)
    · exact absurd h.symm (by decide)
    · exact absurd h.symm (by decide)
    · exact absurd h.symm (by decide)
    · exact (hhex _) h.symm
    · exact (hhex _) h.symm
  · intro hmem
    simp only [List.mem_singleton] at hmem
    subst hmem
    exact h8 (by decide)

theorem textPayload_no_nl (t : List Char) : '\n' ∉ textPayload t := by
  rw [textPayload_cons]
  intro hmem
  simp only [List.mem_cons] at hmem
  rcases hmem with h | h | h | h | h | h | h | h | h | h
  all_goals first
  | exact absurd h (by decide)
  | skip
  rw [List.mem_append] at h
  rcases h with h | h
  · rw [List.mem_flatten] at h
    obtain ⟨l, hl, hmem⟩ := h
    rw [List.mem_map] at hl
    obtain ⟨c, _, rfl⟩ := hl
    exact escapeChar_no_nl c hmem
  · simp at h

theorem scanNN_part (p : List Char) (rest : List Char) (h : '\n' ∉ p) :
    scanNN (p ++ '\n' :: '\n' :: rest) = (p :: (scanNN rest).1, (scanNN rest).2) := by
  induction p with
  | nil => simpa using scanNN_sep '\n' '\n' rest ⟨rfl, rfl⟩
  | cons c p' ih =>
    have hc : c ≠ '\n' := fun hc => h (by simp [hc])
    have hp' : '\n' ∉ p' := fun hm => h (by simp [hm])
    have hih := ih hp'
    have hshape : ∃ d tail, p' ++ '\n' :: '\n' :: rest = d :: tail := by
      cases p' <;> exact ⟨_, _, rfl⟩
    obtain ⟨d, tail, hd⟩ := hshape
    have hnn : ¬ (c = '\n' ∧ d = '\n') := fun hand => hc hand.1
    rw [show (c :: p') ++ '\n' :: '\n' :: rest = c :: (p' ++ '\n' :: '\n' :: rest) from rfl]
    rw [hd]
    rw [scanNN_nosep_cons c d tail hnn (p') ((scanNN rest).1)
      (by rw [← hd, hih])]
    rw [← hd, hih]

theorem scanNN_frames (parts : List (List Char)) (h : ∀ p ∈ parts, '\n' ∉ p) :
    scanNN ((parts.map (fun p => p ++ '\n' :: '\n' :: [])).flatten) = (parts, []) := by
  induction parts with
  | nil => simp [scanNN]
  | cons p ps ih =>
    simp only [List.map_cons, List.flatten_cons, List.append_assoc, List.nil_append]
    rw [show ['\n', '\n'] ++ (List.map (fun p => p ++ ['\n', '\n']) ps).flatten
        = '\n' :: '\n' :: (List.map (fun p => p ++ ['\n', '\n']) ps).flatten from rfl]
    rw [scanNN_part p _ (h p (by simp))]
    rw [ih (fun q hq => h q (by simp [hq]))]

theorem frame_shape (t : List Char) :
    dataTag ++ textPayload t
      = 'd' :: (("ata: ".data ++ ("\x7b\"text\":".data ++ jsonQuote t)) ++ ['\x7d']) := by
  show "data: ".data ++ ("\x7b\"text\":".data ++ jsonQuote t ++ ['\x7d']) = _
  rw [show "data: ".data = 'd' :: "ata: ".data from rfl]
  simp [List.append_assoc]

theorem jsTrim_textFrame (t : List Char) :
    jsTrim (dataTag ++ textPayload t) = dataTag ++ textPayload t := by
  rw [frame_shape]
  exact jsTrim_cons_concat 'd' '\x7d' _ (by decide) (by decide)

theorem textPayload_ne_done (t : List Char) : textPayload t ≠ doneLit := by
  rw [textPayload_cons, show doneLit = ['[', 'D', 'O', 'N', 'E', ']'] from rfl]
  intro h
  simp at h

theorem processFrame_textFrame (pre : List Message) (m t : List Char) :
    processFrame (pre ++ [⟨Role.assistant, m⟩]) (dataTag ++ textPayload t)
      = pre ++ [⟨Role.assistant, m ++ t⟩] := by
  unfold processFrame
  rw [jsTrim_textFrame]
  rw [if_pos (by rw [List.isPrefixOf_iff_prefix]; exact List.prefix_append _ _)]
  rw [show (6 : Nat) = dataTag.length from rfl, List.drop_left]
  rw [if_neg (textPayload_ne_done t)]
  rw [jsonParse_textPayload]
  simp only []
  rw [show jsGetField (Json.obj [("text".data, Json.str t)]) "text".data
      = some (Json.str t) from rfl]
  rw [show jsGetField (Json.obj [("text".data, Json.str t)]) "error".data
      = none from rfl]
  cases t with
  | nil =>
    simp [jsTruthy]
  | cons c cs =>
    show (if jsTruthy (Json.str (c :: cs)) = true
        then appendDelta (pre ++ [⟨Role.assistant, m⟩]) (Json.str (c :: cs))
        else pre ++ [⟨Role.assistant, m⟩]) = _
    rw [if_pos (show jsTruthy (Json.str (c :: cs)) = true from rfl)]
    unfold appendDelta
    rw [List.getLast?_concat]
    simp only [if_pos rfl]
    rw [List.dropLast_concat]
    rfl

theorem processFrame_done (msgs : List Message) :
    processFrame msgs "data: [DONE]".data = msgs := rfl

theorem foldl_processFrame_textFrames (ts : List (List Char)) :
    ∀ (pre : List Message) (m : List Char),
    (ts.map (fun t => dataTag ++ textPayload t)).foldl processFrame
        (pre ++ [⟨Role.assistant, m⟩])
      = pre ++ [⟨Role.assistant, m ++ ts.flatten⟩] := by
  induction ts with
  | nil => intro pre m; simp
  | cons t ts ih =>
    intro pre m
    simp only [List.map_cons, List.foldl_cons]
    rw [processFrame_textFrame, ih]
    simp

theorem streamWrites_as_parts (evs : List AgentEvent) :
    evs.filterMap eventWrite ++ [doneWrite]
      = (((deltaTexts evs).map (fun t => dataTag ++ textPayload t)
          ++ ["data: [DONE]".data]).map (fun p => p ++ '\n' :: '\n' :: [])) := by
  rw [filterMap_eventWrite]
  rw [List.map_append, List.map_map]
  congr 1

theorem parts_no_nl (evs : List AgentEvent) :
    ∀ p ∈ (deltaTexts evs).map (fun t => dataTag ++ textPayload t)
        ++ ["data: [DONE]".data], '\n' ∉ p := by
  intro p hp
  rw [List.mem_append] at hp
  rcases hp with hp | hp
  · rw [List.mem_map] at hp
    obtain ⟨t, _, rfl⟩ := hp
    intro hmem
    rw [List.mem_append] at hmem
    rcases hmem with h | h
    · exact absurd h (by decide)
    · exact textPayload_no_nl t h
  · simp only [List.mem_singleton] at hp
    subst hp
    decide

theorem body_head (evs : List AgentEvent) :
    ∃ tail, (((deltaTexts evs).map (fun t => dataTag ++ textPayload t)
        ++ ["data: [DONE]".data]).map (fun p => p ++ '\n' :: '\n' :: [])).flatten
      = 'd' :: tail := by
  cases hts : (deltaTexts evs).map (fun t => dataTag ++ textPayload t) with
  | nil => exact ⟨_, rfl⟩
  | cons p ps =>
    have hp : ∃ q, p = dataTag ++ textPayload q := by
      have : p ∈ (deltaTexts evs).map (fun t => dataTag ++ textPayload t) := by
        rw [hts]; simp
      rw [List.mem_map] at this
      obtain ⟨t, _, h⟩ := this
      exact ⟨t, h.symm⟩
    obtain ⟨q, rfl⟩ := hp
    refine ⟨("ata: ".data ++ textPayload q ++ '\n' :: '\n' :: [])
      ++ ((ps ++ ["data: [DONE]".data]).map (fun p => p ++ '\n' :: '\n' :: [])).flatten, ?_⟩
    simp only [List.cons_append, List.map_cons, List.flatten_cons]
    rw [show dataTag = 'd' :: "ata: ".data from rfl]
    simp [List.append_assoc]

/-- Core end-to-end lemma: starting from any message list whose last entry
is an assistant message, draining (under any chunking) the byte stream the
streaming handler produced for a completed agent run appends exactly the
concatenation of the text deltas to that last message. -/
theorem consume_stream_body (pre : List Message) (m : List Char)
    (evs : List AgentEvent) (chunks : List (List Nat))
    (hchunks : chunks.flatten
      = utf8Encode ((evs.filterMap eventWrite ++ [doneWrite]).flatten)) :
    runConsumer (initConsumer (pre ++ [⟨Role.assistant, m⟩])) chunks
      = ⟨⟨0, 0, 0x80, 0xBF, false⟩, [],
          pre ++ [⟨Role.assistant, m ++ (deltaTexts evs).flatten⟩]⟩ := by
  obtain ⟨tail, htail⟩ := body_head evs
  rw [streamWrites_as_parts] at hchunks
  cases chunks with
  | nil =>
    exfalso
    rw [htail] at hchunks
    simp only [List.flatten_nil] at hchunks
    have : utf8Encode ('d' :: tail) = utf8EncodeChar 'd' ++ utf8Encode tail := by
      simp [utf8Encode]
    rw [this] at hchunks
    rw [show utf8EncodeChar 'd' = [100] from rfl] at hchunks
    simp at hchunks
  | cons c cs =>
    rw [runConsumer_cons_join]
    rw [show c ++ cs.flatten = (c :: cs).flatten by simp]
    rw [hchunks, stepChunk_scan]
    rw [show (initConsumer (pre ++ [⟨Role.assistant, m⟩])).dec = utf8Init from rfl]
    rw [htail, decodeChunk_encode_start 'd' tail (by decide), ← htail]
    rw [show (initConsumer (pre ++ [⟨Role.assistant, m⟩])).buffer = [] from rfl]
    rw [List.nil_append]
    rw [scanNN_frames _ (parts_no_nl evs)]
    rw [show (initConsumer (pre ++ [⟨Role.assistant, m⟩])).messages
        = pre ++ [⟨Role.assistant, m⟩] from rfl]
    rw [List.foldl_append, foldl_processFrame_textFrames]
    simp only [List.foldl_cons, List.foldl_nil]
    rw [show (['d', 'a', 't', 'a', ':', ' ', '[', 'D', 'O', 'N', 'E', ']'] : List Char)
        = "data: [DONE]".data from rfl, processFrame_done]

/-! ## Structural properties of the client's message updates. -/

theorem appendDelta_dropLast (msgs : List Message) (v : Json) :
    (appendDelta msgs v).dropLast = msgs.dropLast := by
  unfold appendDelta
  cases h : msgs.getLast? with
  | none => rfl
  | some lastMsg =>
    show (if lastMsg.role = Role.assistant then
        msgs.dropLast ++ [{ lastMsg with content := lastMsg.content ++ jsToString v }]
      else msgs).dropLast = msgs.dropLast
    by_cases hrole : lastMsg.role = Role.assistant
    · rw [if_pos hrole, List.dropLast_concat]
    · rw [if_neg hrole]

theorem appendDelta_length (msgs : List Message) (v : Json) :
    (appendDelta msgs v).length = msgs.length := by
  unfold appendDelta
  cases h : msgs.getLast? with
  | none => rfl
  | some lastMsg =>
    have hne : msgs ≠ [] := by
      intro he
      rw [he] at h
      simp at h
    show (if lastMsg.role = Role.assistant then
        msgs.dropLast ++ [{ lastMsg with content := lastMsg.content ++ jsToString v }]
      else msgs).length = msgs.length
    by_cases hrole : lastMsg.role = Role.assistant
    · rw [if_pos hrole]
      simp only [List.length_append, List.length_dropLast, List.length_cons,
        List.length_nil]
      have : 0 < msgs.length := List.length_pos.mpr hne
      omega
    · rw [if_neg hrole]

/-- Every branch of `processFrame` returns the input unchanged, appends to
the last message, or replaces the last message: a case catalogue used for
the invariants. -/
theorem processFrame_cases (msgs : List Message) (part : List Char) :
    processFrame msgs part = msgs
    ∨ (∃ v, processFrame msgs part = appendDelta msgs v)
    ∨ (∃ v m1, (m1 = msgs ∨ ∃ w, m1 = appendDelta msgs w)
        ∧ processFrame msgs part = setError m1 v) := by
  unfold processFrame
  by_cases hpre : dataTag.isPrefixOf (jsTrim part) = true
  · rw [if_pos hpre]
    by_cases hdone : (jsTrim part).drop 6 = doneLit
    · rw [if_pos hdone]
      exact Or.inl rfl
    · rw [if_neg hdone]
      cases hparse : jsonParse ((jsTrim part).drop 6) with
      | none => exact Or.inl rfl
      | some parsed =>
        simp only []
        cases htext : jsGetField parsed ['t', 'e', 'x', 't'] with
        | none =>
          cases herr : jsGetField parsed ['e', 'r', 'r', 'o', 'r'] with
          | none => exact Or.inl rfl
          | some v =>
            simp only []
            by_cases htr : jsTruthy v = true
            · rw [if_pos htr]
              exact Or.inr (Or.inr ⟨v, msgs, Or.inl rfl, rfl⟩)
            · rw [if_neg htr]
              exact Or.inl rfl
        | some w =>
          cases herr : jsGetField parsed ['e', 'r', 'r', 'o', 'r'] with
          | none =>
            simp only []
            by_cases hwtr : jsTruthy w = true
            · rw [if_pos hwtr]
              exact Or.inr (Or.inl ⟨w, rfl⟩)
            · rw [if_neg hwtr]
              exact Or.inl rfl
          | some v =>
            simp only []
            by_cases hwtr : jsTruthy w = true
            · by_cases htr : jsTruthy v = true
              · rw [if_pos hwtr, if_pos htr]
                exact Or.inr (Or.inr ⟨v, appendDelta msgs w, Or.inr ⟨w, rfl⟩, rfl⟩)
              · rw [if_pos hwtr, if_neg htr]
                exact Or.inr (Or.inl ⟨w, rfl⟩)
            · by_cases htr : jsTruthy v = true
              · rw [if_neg hwtr, if_pos htr]
                exact Or.inr (Or.inr ⟨v, msgs, Or.inl rfl, rfl⟩)
              · rw [if_neg hwtr, if_neg htr]
                exact Or.inl rfl
  · rw [if_neg hpre]
    exact Or.inl rfl

/-- Mutation locality: one frame never touches anything but the last
message — the length and everything before the last element are
preserved. -/
theorem processFrame_local (msgs : List Message) (part : List Char) (h : msgs ≠ []) :
    (processFrame msgs part).length = msgs.length
    ∧ (processFrame msgs part).dropLast = msgs.dropLast := by
  have hlen : 0 < msgs.length := List.length_pos.mpr h
  rcases processFrame_cases msgs part with hc | ⟨v, hc⟩ | ⟨v, m1, hm1, hc⟩
  · rw [hc]
    exact ⟨rfl, rfl⟩
  · rw [hc]
    exact ⟨appendDelta_length msgs v, appendDelta_dropLast msgs v⟩
  · have hm1len : m1.length = msgs.length := by
      rcases hm1 with rfl | ⟨w, rfl⟩
      · rfl
      · exact appendDelta_length msgs w
    have hm1dl : m1.dropLast = msgs.dropLast := by
      rcases hm1 with rfl | ⟨w, rfl⟩
      · rfl
      · exact appendDelta_dropLast msgs w
    rw [hc]
    unfold setError
    constructor
    · simp only [List.length_append, List.length_dropLast, List.length_cons,
        List.length_nil]
      omega
    · rw [List.dropLast_concat, hm1dl]

/-- Shape preservation: if the last message is an assistant message, it
stays the last and only mutated element. -/
theorem processFrame_shape (pre : List Message) (s : List Char) (part : List Char) :
    ∃ q, processFrame (pre ++ [⟨Role.assistant, s⟩]) part
      = pre ++ [⟨Role.assistant, q⟩] := by
  rcases processFrame_cases (pre ++ [⟨Role.assistant, s⟩]) part
    with hc | ⟨v, hc⟩ | ⟨v, m1, hm1, hc⟩
  · exact ⟨s, hc⟩
  · refine ⟨s ++ jsToString v, ?_⟩
    rw [hc]
    unfold appendDelta
    rw [List.getLast?_concat]
    simp [List.dropLast_concat]
  · refine ⟨errorLabel ++ jsToString v, ?_⟩
    rw [hc]
    unfold setError
    have : m1.dropLast = pre := by
      rcases hm1 with rfl | ⟨w, rfl⟩
      · rw [List.dropLast_concat]
      · rw [appendDelta_dropLast, List.dropLast_concat]
    rw [this]

theorem foldl_processFrame_shape (parts : List (List Char)) :
    ∀ (pre : List Message) (s : List Char),
    ∃ q, parts.foldl processFrame (pre ++ [⟨Role.assistant, s⟩])
      = pre ++ [⟨Role.assistant, q⟩] := by
  induction parts with
  | nil => intro pre s; exact ⟨s, rfl⟩
  | cons p ps ih =>
    intro pre s
    simp only [List.foldl_cons]
    obtain ⟨q1, hq1⟩ := processFrame_shape pre s p
    rw [hq1]
    exact ih pre q1

theorem runConsumer_shape (chunks : List (List Nat)) :
    ∀ (st : ConsumerState) (pre : List Message) (s : List Char),
    st.messages = pre ++ [⟨Role.assistant, s⟩] →
    ∃ q, (runConsumer st chunks).messages = pre ++ [⟨Role.assistant, q⟩] := by
  induction chunks with
  | nil => intro st pre s h; exact ⟨s, h⟩
  | cons c cs ih =>
    intro st pre s h
    have hstep : (stepChunk st c).messages
        = (scanNN (st.buffer ++ (decodeChunk st.dec c).2)).1.foldl
            processFrame st.messages := by
      rw [stepChunk_scan]
    rw [h] at hstep
    obtain ⟨q1, hq1⟩ := foldl_processFrame_shape
      (scanNN (st.buffer ++ (decodeChunk st.dec c).2)).1 pre s
    rw [hq1] at hstep
    exact ih (stepChunk st c) pre q1 hstep

/-- A complete `data:` frame whose payload does not parse as JSON is
dropped: the messages are unchanged (the `catch` swallows the exception and
the loop continues). -/
theorem processFrame_badJson (msgs : List Message) (part : List Char)
    (hpre : dataTag.isPrefixOf (jsTrim part) = true)
    (hdone : (jsTrim part).drop 6 ≠ doneLit)
    (hbad : jsonParse ((jsTrim part).drop 6) = none) :
    processFrame msgs part = msgs := by
  unfold processFrame
  rw [if_pos hpre, if_neg hdone, hbad]

theorem foldl_processFrame_around (msgs : List Message)
    (before after : List (List Char)) (part : List Char)
    (hpre : dataTag.isPrefixOf (jsTrim part) = true)
    (hdone : (jsTrim part).drop 6 ≠ doneLit)
    (hbad : jsonParse ((jsTrim part).drop 6) = none) :
    (before ++ part :: after).foldl processFrame msgs
      = after.foldl processFrame (before.foldl processFrame msgs) := by
  rw [List.foldl_append]
  simp only [List.foldl_cons]
  rw [processFrame_badJson _ _ hpre hdone hbad]

theorem stepChunk_messages_indep (d : DecState) (b : List Char)
    (m1 m2 : List Message) (c : List Nat) :
    (stepChunk ⟨d, b, m1⟩ c).buffer = (stepChunk ⟨d, b, m2⟩ c).buffer
    ∧ (stepChunk ⟨d, b, m1⟩ c).dec = (stepChunk ⟨d, b, m2⟩ c).dec := by
  constructor <;> rfl

/-- A complete `data:` frame whose payload is JSON with a truthy string
`error` field replaces the last message with the error-labelled assistant
message, discarding whatever the frame's `text` branch did to it. -/
theorem processFrame_errorFrame (msgs : List Message) (part : List Char)
    (j : Json) (X : List Char)
    (hpre : dataTag.isPrefixOf (jsTrim part) = true)
    (hdone : (jsTrim part).drop 6 ≠ doneLit)
    (hparse : jsonParse ((jsTrim part).drop 6) = some j)
    (herr : jsGetField j "error".data = some (Json.str X))
    (hX : X ≠ []) :
    processFrame msgs part
      = msgs.dropLast ++ [⟨Role.assistant, errorLabel ++ X⟩] := by
  have htr : jsTruthy (Json.str X) = true := by
    cases X with
    | nil => exact absurd rfl hX
    | cons c cs => rfl
  unfold processFrame
  rw [if_pos hpre, if_neg hdone, hparse]
  simp only []
  have herr2 : jsGetField j ['e', 'r', 'r', 'o', 'r'] = some (Json.str X) := herr
  rw [herr2]
  simp only []
  rw [if_pos htr]
  unfold setError
  rw [show jsToString (Json.str X) = X from rfl]
  congr 1
  cases htext : jsGetField j ['t', 'e', 'x', 't'] with
  | none => rfl
  | some w =>
    simp only []
    by_cases hw : jsTruthy w = true
    · rw [if_pos hw, appendDelta_dropLast]
    · rw [if_neg hw]

/-! ## Non-streaming normalization (spec-modelled) -/

/-- Modelled from the spec: the repository's client (`App.tsx`) always
requests `stream: true`, so the non-streaming consumer-side normalization
of `response` (§4.3: "a single string or a sequence of content blocks,
each with an optional `text` field") has no implementation under `src/`.
A block without a `text` field is `none`. -/
inductive ResponseContent where
  | plain (s : List Char)
  | blocks (bs : List (Option (List Char)))

/-- Modelled from the spec: normalize either response shape into one
display string, concatenating block texts in order, absent texts
contributing the empty string. -/
def normalizeResponse : ResponseContent → List Char
  | ResponseContent.plain s => s
  | ResponseContent.blocks bs => (bs.map (fun b => b.getD [])).flatten

/-! ## Handler result inversion -/

theorem errorPayload_cons :
    errorPayload
      = '\x7b' :: '"' :: 'e' :: 'r' :: 'r' :: 'o' :: 'r' :: '"' :: ':' ::
        (jsonQuote "ストリームエラー".data ++ ['\x7d']) := by
  show ("\x7b\"error\":".data ++ jsonQuote "ストリームエラー".data ++ ['\x7d']) = _
  rw [show "\x7b\"error\":".data = ['\x7b', '"', 'e', 'r', 'r', 'o', 'r', '"', ':'] from rfl]
  simp

/-- The error frame can never collide with a delta frame: the serialized
payloads differ at their third character. -/
theorem errorWrite_not_delta (evs : List AgentEvent) :
    sseDataWrite errorPayload ∉ evs.filterMap eventWrite := by
  rw [filterMap_eventWrite]
  intro hmem
  rw [List.mem_map] at hmem
  obtain ⟨t, _, heq⟩ := hmem
  have h1 : dataTag ++ (textPayload t ++ ['\n', '\n'])
      = dataTag ++ (errorPayload ++ ['\n', '\n']) := heq
  have hpay : textPayload t = errorPayload :=
    List.append_cancel_right (List.append_cancel_left h1)
  rw [textPayload_cons, errorPayload_cons] at hpay
  simp at hpay

theorem handler_sse_inv (req : HttpRequest) (agent : AgentBehavior)
    (ws : List (List Char)) (c : Bool)
    (h : handler req agent = HandlerResult.sseResponse ws c) :
    c = true
    ∧ ((∃ evs, agent.streamed = StreamRun.completed evs
          ∧ ws = evs.filterMap eventWrite ++ [doneWrite])
      ∨ (∃ evs, agent.streamed = StreamRun.failed evs
          ∧ ws = evs.filterMap eventWrite ++ [sseDataWrite errorPayload])) := by
  unfold handler at h
  simp only [] at h
  split_ifs at h
  all_goals first
  | exact HandlerResult.noConfusion h
  | (cases hst : agent.streamed with
     | completed evs =>
       rw [hst] at h
       have h5 : HandlerResult.sseResponse (evs.filterMap eventWrite ++ [doneWrite]) true
           = HandlerResult.sseResponse ws c := h
       cases h5
       exact ⟨rfl, Or.inl ⟨evs, rfl, rfl⟩⟩
     | failed evs =>
       rw [hst] at h
       have h5 : HandlerResult.sseResponse
           (evs.filterMap eventWrite ++ [sseDataWrite errorPayload]) true
           = HandlerResult.sseResponse ws c := h
       cases h5
       exact ⟨rfl, Or.inr ⟨evs, rfl, rfl⟩⟩)
  | (cases hin : agent.invoked with
     | none =>
       rw [hin] at h
       exact HandlerResult.noConfusion h
     | some content =>
       rw [hin] at h
       exact HandlerResult.noConfusion h)

theorem destructurable_of_ne_null (b : Json) (hb : b ≠ Json.null) :
    destructurable (some b) = true := by
  cases b with
  | null => exact absurd rfl hb
  | bool x => rfl
  | num l => rfl
  | str s => rfl
  | arr xs => rfl
  | obj fs => rfl

/-- Evaluation of the streaming handler on a POST request with a
destructurable body, down to the validation and dispatch ifs. -/
theorem handler_eval (req : HttpRequest) (agent : AgentBehavior) (b : Json)
    (hmethod : req.method = "POST".data) (hbody : req.body = some b)
    (hb : b ≠ Json.null) :
    handler req agent
      = (if (!jsTruthyOpt (jsGetField b "message".data)
            || !isStringOpt (jsGetField b "message".data)) = true then
          HandlerResult.response 400 (errorBody "message is required".data)
        else if jsTruthyOpt (jsGetField b "stream".data) = true then
          (match agent.streamed with
           | StreamRun.completed evs =>
             HandlerResult.sseResponse (evs.filterMap eventWrite ++ [doneWrite]) true
           | StreamRun.failed evs =>
             HandlerResult.sseResponse
               (evs.filterMap eventWrite ++ [sseDataWrite errorPayload]) true)
        else
          (match agent.invoked with
           | none => HandlerResult.response 500 (errorBody "Internal server error".data)
           | some content =>
             HandlerResult.response 200
               (match content with
                | some c => Json.obj [("response".data, c)]
                | none => Json.obj []))) := by
  unfold handler
  rw [hbody]
  rw [if_neg (show ¬ req.method ≠ "POST".data from fun h => h hmethod)]
  rw [if_neg (show ¬ ¬ destructurable (some b) = true from
    fun h => h (destructurable_of_ne_null b hb))]
  rfl

/-- Evaluation of the legacy handler on a POST request with a
destructurable body. -/
theorem handlerLegacy_eval (req : HttpRequest) (agent : AgentBehavior) (b : Json)
    (hmethod : req.method = "POST".data) (hbody : req.body = some b)
    (hb : b ≠ Json.null) :
    handlerLegacy req agent
      = (if (!jsTruthyOpt (jsGetField b "message".data)
            || !isStringOpt (jsGetField b "message".data)) = true then
          HandlerResult.response 400 (errorBody "message is required".data)
        else
          (match agent.invoked with
           | none => HandlerResult.response 500 (errorBody "Internal server error".data)
           | some content =>
             HandlerResult.response 200
               (match content with
                | some c => Json.obj [("response".data, c)]
                | none => Json.obj []))) := by
  unfold handlerLegacy
  rw [hbody]
  rw [if_neg (show ¬ req.method ≠ "POST".data from fun h => h hmethod)]
  rw [if_neg (show ¬ ¬ destructurable (some b) = true from
    fun h => h (destructurable_of_ne_null b hb))]
  rfl

/-- The `!message || typeof message !== 'string'` check succeeds (returns
400) whenever the message field is absent or not a string. -/
theorem validation_fails (mo : Option Json) (h : ∀ s, mo ≠ some (Json.str s)) :
    (!jsTruthyOpt mo || !isStringOpt mo) = true := by
  cases mo with
  | none => rfl
  | some j =>
    cases j with
    | null => rfl
    | bool x => simp [isStringOpt]
    | num l => simp [isStringOpt]
    | str s => exact absurd rfl (h s)
    | arr xs => simp [isStringOpt]
    | obj fs => simp [isStringOpt]

/-- The check also fires on the empty string (it is falsy). -/
theorem validation_fails_empty :
    (!jsTruthyOpt (some (Json.str [])) || !isStringOpt (some (Json.str []))) = true := rfl

/-- The check passes exactly on non-empty strings. -/
theorem validation_passes (s : List Char) (hs : s ≠ []) :
    (!jsTruthyOpt (some (Json.str s)) || !isStringOpt (some (Json.str s))) = false := by
  cases s with
  | nil => exact absurd rfl hs
  | cons c cs => rfl

/-! ## The claims -/

/-- C2: For every SSE byte sequence `s` and every partition of `s` into
arbitrary-sized chunks (including splits inside a UTF-8 multi-byte
sequence, inside a JSON payload, or exactly at a `\n\n` boundary), running
the Stream Consumer on the chunked partition produces the same final state
— in particular the same final message content — as running it on `s`
delivered as a single chunk. -/
theorem claim_C2 (msgs : List Message) (chunks : List (List Nat)) :
    runConsumer (initConsumer msgs) chunks
      = runConsumer (initConsumer msgs) [chunks.flatten] := by
  cases chunks with
  | nil => rfl
  | cons c cs =>
    rw [runConsumer_cons_join]
    rfl

/-- C5 (spec-modelled): the non-streaming consumer normalizes `response`
into one display string: a plain string maps to itself, and a block list
maps to the in-order concatenation of the blocks' optional texts, blocks
without text contributing the empty string — so
`[{text:"a"},{},{text:"b"}]` yields `"ab"`. -/
theorem claim_C5 :
    (∀ s, normalizeResponse (ResponseContent.plain s) = s)
    ∧ (∀ bs1 bs2, normalizeResponse (ResponseContent.blocks (bs1 ++ bs2))
        = normalizeResponse (ResponseContent.blocks bs1)
          ++ normalizeResponse (ResponseContent.blocks bs2))
    ∧ (∀ t, normalizeResponse (ResponseContent.blocks [some t]) = t)
    ∧ normalizeResponse (ResponseContent.blocks [none]) = []
    ∧ normalizeResponse (ResponseContent.blocks
        [some "a".data, none, some "b".data]) = "ab".data := by
  refine ⟨fun s => rfl, fun bs1 bs2 => ?_, fun t => by simp [normalizeResponse], rfl, rfl⟩
  simp [normalizeResponse]

/-- C6 counterexample: the claim fails for the error value `""`: the frame
`data: {"error":""}` parses to an object whose `error` field is the empty
string, yet `if (parsed.error)` is falsy, so the accumulated content is
left in place instead of being overwritten with an error-prefixed string. -/
theorem claim_C6_counterexample :
    processFrame [⟨Role.assistant, "partial".data⟩] "data: \x7b\"error\":\"\"\x7d".data
      = [⟨Role.assistant, "partial".data⟩]
    ∧ jsonParse ((jsTrim "data: \x7b\"error\":\"\"\x7d".data).drop 6)
      = some (Json.obj [("error".data, Json.str [])])
    ∧ errorLabel.isPrefixOf "partial".data = false := by
  exact ⟨rfl, rfl, rfl⟩

/-- C6 (amended: the error value must be a non-empty — truthy — string):
whenever the Stream Consumer processes a complete frame whose JSON payload
has an `error` field holding a non-empty string `X`, the last message
becomes an assistant message whose content is exactly the error label
followed by `X`, overwriting any partial content accumulated so far. -/
theorem claim_C6 (msgs : List Message) (part : List Char) (j : Json) (X : List Char)
    (hpre : dataTag.isPrefixOf (jsTrim part) = true)
    (hdone : (jsTrim part).drop 6 ≠ doneLit)
    (hparse : jsonParse ((jsTrim part).drop 6) = some j)
    (herr : jsGetField j "error".data = some (Json.str X))
    (hX : X ≠ []) :
    processFrame msgs part = msgs.dropLast ++ [⟨Role.assistant, errorLabel ++ X⟩] :=
  processFrame_errorFrame msgs part j X hpre hdone hparse herr hX

theorem claim_C6_witness :
    processFrame [⟨Role.assistant, "partial".data⟩] "data: \x7b\"error\":\"boom\"\x7d".data
      = [⟨Role.assistant, errorLabel ++ "boom".data⟩] :=
  claim_C6 [⟨Role.assistant, "partial".data⟩] "data: \x7b\"error\":\"boom\"\x7d".data
    (Json.obj [("error".data, Json.str "boom".data)]) "boom".data
    rfl (by decide) rfl rfl (by decide)

/-- C7: a complete frame whose payload after `data: ` is not valid JSON is
dropped without throwing (the embedding is a total function), without
halting the read loop (subsequent frames in the fold are applied normally),
and without corrupting the decode buffer (the buffer and decoder state
never depend on the message state at all). -/
theorem claim_C7 :
    (∀ (msgs : List Message) (part : List Char),
      dataTag.isPrefixOf (jsTrim part) = true →
      (jsTrim part).drop 6 ≠ doneLit →
      jsonParse ((jsTrim part).drop 6) = none →
      processFrame msgs part = msgs)
    ∧ (∀ (msgs : List Message) (before after : List (List Char)) (part : List Char),
      dataTag.isPrefixOf (jsTrim part) = true →
      (jsTrim part).drop 6 ≠ doneLit →
      jsonParse ((jsTrim part).drop 6) = none →
      (before ++ part :: after).foldl processFrame msgs
        = after.foldl processFrame (before.foldl processFrame msgs))
    ∧ (∀ (d : DecState) (buf : List Char) (m1 m2 : List Message) (c : List Nat),
      (stepChunk ⟨d, buf, m1⟩ c).buffer = (stepChunk ⟨d, buf, m2⟩ c).buffer
      ∧ (stepChunk ⟨d, buf, m1⟩ c).dec = (stepChunk ⟨d, buf, m2⟩ c).dec) :=
  ⟨fun msgs part h1 h2 h3 => processFrame_badJson msgs part h1 h2 h3,
   fun msgs before after part h1 h2 h3 =>
     foldl_processFrame_around msgs before after part h1 h2 h3,
   fun d buf m1 m2 c => stepChunk_messages_indep d buf m1 m2 c⟩

theorem claim_C7_witness :
    processFrame [⟨Role.assistant, "a".data⟩] "data: \x7boops".data
      = [⟨Role.assistant, "a".data⟩] :=
  claim_C7.1 [⟨Role.assistant, "a".data⟩] "data: \x7boops".data rfl (by decide) rfl

/-- C8: the message sequence is append-only except for the most recent
message: (1) processing any frame preserves the length and every message
before the last one; (2) across an entire streaming session started by
`sendMessage` (user message then empty assistant message appended), the
state is always `prior ++ [user, assistant s]` — the single in-flight
assistant message is always the last element. -/
theorem claim_C8 :
    (∀ (msgs : List Message) (part : List Char), msgs ≠ [] →
      (processFrame msgs part).length = msgs.length
      ∧ (processFrame msgs part).dropLast = msgs.dropLast)
    ∧ (∀ (prior : List Message) (u : List Char) (chunks : List (List Nat)),
      ∃ s, (runConsumer (initConsumer
          (prior ++ [⟨Role.user, u⟩, ⟨Role.assistant, []⟩])) chunks).messages
        = prior ++ [⟨Role.user, u⟩, ⟨Role.assistant, s⟩]) := by
  constructor
  · exact fun msgs part h => processFrame_local msgs part h
  · intro prior u chunks
    have h0 : (initConsumer (prior ++ [⟨Role.user, u⟩, ⟨Role.assistant, []⟩])).messages
        = (prior ++ [⟨Role.user, u⟩]) ++ [⟨Role.assistant, []⟩] := by
      show prior ++ [⟨Role.user, u⟩, ⟨Role.assistant, []⟩] = _
      simp
    obtain ⟨q, hq⟩ := runConsumer_shape chunks _ _ _ h0
    refine ⟨q, ?_⟩
    rw [hq]
    simp

theorem claim_C8_witness :
    ((processFrame [⟨Role.user, "q".data⟩, ⟨Role.assistant, "x".data⟩]
        "data: \x7b\"text\":\"y\"\x7d".data).length
      = ([⟨Role.user, "q".data⟩, ⟨Role.assistant, "x".data⟩] : List Message).length
    ∧ (processFrame [⟨Role.user, "q".data⟩, ⟨Role.assistant, "x".data⟩]
        "data: \x7b\"text\":\"y\"\x7d".data).dropLast
      = ([⟨Role.user, "q".data⟩, ⟨Role.assistant, "x".data⟩] : List Message).dropLast)
    ∧ ∃ s, (runConsumer (initConsumer
        ([] ++ [⟨Role.user, "u".data⟩, ⟨Role.assistant, []⟩])) [[100]]).messages
      = [] ++ [⟨Role.user, "u".data⟩, ⟨Role.assistant, s⟩] :=
  ⟨claim_C8.1 [⟨Role.user, "q".data⟩, ⟨Role.assistant, "x".data⟩]
      "data: \x7b\"text\":\"y\"\x7d".data (by decide),
   claim_C8.2 [] "u".data [[100]]⟩

/-- C1: for every sequence of agent events of a streaming request that the
handler answers with an SSE response, and every partition of the response's
UTF-8 bytes into chunks, after the Stream Consumer drains the stream the
final assistant message content is exactly the concatenation of the text
deltas, in order. -/
theorem claim_C1 (req : HttpRequest) (agent : AgentBehavior)
    (events : List AgentEvent) (writes : List (List Char))
    (prior : List Message) (u : List Char) (chunks : List (List Nat))
    (hstream : agent.streamed = StreamRun.completed events)
    (hresp : handler req agent = HandlerResult.sseResponse writes true)
    (hchunks : chunks.flatten = utf8Encode writes.flatten) :
    (runConsumer (initConsumer
        (prior ++ [⟨Role.user, u⟩, ⟨Role.assistant, []⟩])) chunks).messages
      = prior ++ [⟨Role.user, u⟩, ⟨Role.assistant, (deltaTexts events).flatten⟩] := by
  obtain ⟨-, hws⟩ := handler_sse_inv req agent writes true hresp
  rcases hws with ⟨evs, hst, hw⟩ | ⟨evs, hst, hw⟩
  · rw [hstream] at hst
    cases hst
    subst hw
    have hre : prior ++ [⟨Role.user, u⟩, ⟨Role.assistant, ([] : List Char)⟩]
        = (prior ++ [⟨Role.user, u⟩]) ++ [⟨Role.assistant, ([] : List Char)⟩] := by
      simp
    rw [hre]
    have hcs := consume_stream_body (prior ++ [(⟨Role.user, u⟩ : Message)]) []
      events chunks hchunks
    rw [hcs]
    simp
  · rw [hstream] at hst
    exact StreamRun.noConfusion hst

theorem claim_C1_witness :
    (runConsumer (initConsumer [⟨Role.user, "hi".data⟩, ⟨Role.assistant, []⟩])
        [(utf8Encode (([AgentEvent.modelContentBlockDeltaEvent (Delta.textDelta "こん".data),
              AgentEvent.otherEvent,
              AgentEvent.modelContentBlockDeltaEvent (Delta.textDelta "にちは".data)].filterMap
                eventWrite ++ [doneWrite]).flatten)).take 17,
         (utf8Encode (([AgentEvent.modelContentBlockDeltaEvent (Delta.textDelta "こん".data),
              AgentEvent.otherEvent,
              AgentEvent.modelContentBlockDeltaEvent (Delta.textDelta "にちは".data)].filterMap
                eventWrite ++ [doneWrite]).flatten)).drop 17]).messages
      = [⟨Role.user, "hi".data⟩, ⟨Role.assistant, "こんにちは".data⟩] :=
  claim_C1
    ⟨"POST".data, some (Json.obj [("message".data, Json.str "hi".data),
        ("stream".data, Json.bool true)])⟩
    ⟨StreamRun.completed
        [AgentEvent.modelContentBlockDeltaEvent (Delta.textDelta "こん".data),
         AgentEvent.otherEvent,
         AgentEvent.modelContentBlockDeltaEvent (Delta.textDelta "にちは".data)],
      some none⟩
    [AgentEvent.modelContentBlockDeltaEvent (Delta.textDelta "こん".data),
     AgentEvent.otherEvent,
     AgentEvent.modelContentBlockDeltaEvent (Delta.textDelta "にちは".data)]
    ([AgentEvent.modelContentBlockDeltaEvent (Delta.textDelta "こん".data),
      AgentEvent.otherEvent,
      AgentEvent.modelContentBlockDeltaEvent (Delta.textDelta "にちは".data)].filterMap
        eventWrite ++ [doneWrite])
    [] "hi".data
    [(utf8Encode (([AgentEvent.modelContentBlockDeltaEvent (Delta.textDelta "こん".data),
          AgentEvent.otherEvent,
          AgentEvent.modelContentBlockDeltaEvent (Delta.textDelta "にちは".data)].filterMap
            eventWrite ++ [doneWrite]).flatten)).take 17,
     (utf8Encode (([AgentEvent.modelContentBlockDeltaEvent (Delta.textDelta "こん".data),
          AgentEvent.otherEvent,
          AgentEvent.modelContentBlockDeltaEvent (Delta.textDelta "にちは".data)].filterMap
            eventWrite ++ [doneWrite]).flatten)).drop 17]
    rfl rfl (by simp [List.take_append_drop])

/-- C3: when `stream` is truthy and the request is valid, the handler
answers with one SSE write `data: {"text": ...}\n\n` per model text delta,
in event order, nothing for any other event kind, and a final
`data: [DONE]\n\n` write before closing the response; no frame is split
across two writes (each frame is a single element of the write list). -/
theorem claim_C3 (b : Json) (s : List Char) (agent : AgentBehavior)
    (events : List AgentEvent)
    (hmsg : jsGetField b "message".data = some (Json.str s))
    (hs : s ≠ [])
    (hstr : jsTruthyOpt (jsGetField b "stream".data) = true)
    (hrun : agent.streamed = StreamRun.completed events) :
    handler ⟨"POST".data, some b⟩ agent
      = HandlerResult.sseResponse
          ((deltaTexts events).map (fun t => sseDataWrite (textPayload t))
            ++ [doneWrite]) true
    ∧ (∀ t, eventWrite (AgentEvent.modelContentBlockDeltaEvent (Delta.textDelta t))
        = some (sseDataWrite (textPayload t)))
    ∧ (∀ e, (∀ t, e ≠ AgentEvent.modelContentBlockDeltaEvent (Delta.textDelta t)) →
        eventWrite e = none) := by
  have hbn : b ≠ Json.null := by
    intro h
    rw [h] at hmsg
    exact Option.noConfusion hmsg
  refine ⟨?_, fun t => rfl, fun e he => ?_⟩
  · rw [handler_eval ⟨"POST".data, some b⟩ agent b rfl rfl hbn]
    rw [hmsg]
    rw [if_neg (by rw [validation_passes s hs]; exact Bool.false_ne_true)]
    rw [if_pos hstr, hrun]
    show HandlerResult.sseResponse (events.filterMap eventWrite ++ [doneWrite]) true = _
    rw [filterMap_eventWrite]
  · cases e with
    | modelContentBlockDeltaEvent d =>
      cases d with
      | textDelta t => exact absurd rfl (he t)
      | otherDelta => rfl
    | otherEvent => rfl

theorem claim_C3_witness :
    handler ⟨"POST".data, some (Json.obj [("message".data, Json.str "hi".data),
        ("stream".data, Json.bool true)])⟩
      ⟨StreamRun.completed
          [AgentEvent.modelContentBlockDeltaEvent (Delta.textDelta "Hi".data),
           AgentEvent.otherEvent], some none⟩
      = HandlerResult.sseResponse
          ((deltaTexts [AgentEvent.modelContentBlockDeltaEvent (Delta.textDelta "Hi".data),
              AgentEvent.otherEvent]).map (fun t => sseDataWrite (textPayload t))
            ++ [doneWrite]) true
    ∧ (∀ t, eventWrite (AgentEvent.modelContentBlockDeltaEvent (Delta.textDelta t))
        = some (sseDataWrite (textPayload t)))
    ∧ (∀ e, (∀ t, e ≠ AgentEvent.modelContentBlockDeltaEvent (Delta.textDelta t)) →
        eventWrite e = none) :=
  claim_C3 (Json.obj [("message".data, Json.str "hi".data),
      ("stream".data, Json.bool true)]) "hi".data
    ⟨StreamRun.completed
        [AgentEvent.modelContentBlockDeltaEvent (Delta.textDelta "Hi".data),
         AgentEvent.otherEvent], some none⟩
    [AgentEvent.modelContentBlockDeltaEvent (Delta.textDelta "Hi".data),
     AgentEvent.otherEvent]
    rfl (by decide) rfl rfl

/-- C4 counterexample: a POST whose body is absent (undefined) or the JSON
literal `null` makes `const { message, stream } = req.body` throw a
`TypeError` outside every `try`, so the failure escapes the handler as an
unhandled fault instead of being converted to an HTTP status. -/
theorem claim_C4_counterexample :
    handler ⟨"POST".data, none⟩ ⟨StreamRun.completed [], some none⟩
      = HandlerResult.jsFault
    ∧ handler ⟨"POST".data, some Json.null⟩ ⟨StreamRun.completed [], some none⟩
      = HandlerResult.jsFault := ⟨rfl, rfl⟩

/-- C4 (amended: provided the request is a non-POST or its body
destructures, i.e. is neither absent nor `null`): no failure escapes the
handler; a failure during streaming yields exactly one in-band error frame
(the error write is never among the delta frames) and the response is
closed; every other outcome is an HTTP status response with a JSON body. -/
theorem claim_C4 (req : HttpRequest) (agent : AgentBehavior)
    (hok : req.method ≠ "POST".data ∨ ∃ b, req.body = some b ∧ b ≠ Json.null) :
    handler req agent ≠ HandlerResult.jsFault
    ∧ ((∃ st bd, handler req agent = HandlerResult.response st bd)
      ∨ (∃ evs, agent.streamed = StreamRun.completed evs
          ∧ handler req agent
            = HandlerResult.sseResponse (evs.filterMap eventWrite ++ [doneWrite]) true)
      ∨ (∃ evs, agent.streamed = StreamRun.failed evs
          ∧ handler req agent
            = HandlerResult.sseResponse
                (evs.filterMap eventWrite ++ [sseDataWrite errorPayload]) true
          ∧ sseDataWrite errorPayload ∉ evs.filterMap eventWrite)) := by
  have hcat : (∃ st bd, handler req agent = HandlerResult.response st bd)
      ∨ (∃ evs, agent.streamed = StreamRun.completed evs
          ∧ handler req agent
            = HandlerResult.sseResponse (evs.filterMap eventWrite ++ [doneWrite]) true)
      ∨ (∃ evs, agent.streamed = StreamRun.failed evs
          ∧ handler req agent
            = HandlerResult.sseResponse
                (evs.filterMap eventWrite ++ [sseDataWrite errorPayload]) true
          ∧ sseDataWrite errorPayload ∉ evs.filterMap eventWrite) := by
    by_cases h1 : req.method ≠ "POST".data
    · exact Or.inl ⟨405, errorBody "Method not allowed".data, by unfold handler; rw [if_pos h1]⟩
    · obtain ⟨b, hb, hbn⟩ : ∃ b, req.body = some b ∧ b ≠ Json.null := by
        rcases hok with hm | h
        · exact absurd hm h1
        · exact h
      have hme : req.method = "POST".data := not_not.mp h1
      have heq := handler_eval req agent b hme hb hbn
      by_cases hv : (!jsTruthyOpt (jsGetField b "message".data)
          || !isStringOpt (jsGetField b "message".data)) = true
      · exact Or.inl ⟨400, errorBody "message is required".data, by rw [heq, if_pos hv]⟩
      · by_cases hst : jsTruthyOpt (jsGetField b "stream".data) = true
        · cases hrun : agent.streamed with
          | completed evs =>
            refine Or.inr (Or.inl ⟨evs, rfl, ?_⟩)
            rw [heq, if_neg hv, if_pos hst, hrun]
          | failed evs =>
            refine Or.inr (Or.inr ⟨evs, rfl, ?_, errorWrite_not_delta evs⟩)
            rw [heq, if_neg hv, if_pos hst, hrun]
        · cases hin : agent.invoked with
          | none =>
            exact Or.inl ⟨500, errorBody "Internal server error".data,
              by rw [heq, if_neg hv, if_neg hst, hin]⟩
          | some content =>
            cases content with
            | none =>
              exact Or.inl ⟨200, Json.obj [], by
                rw [heq, if_neg hv, if_neg hst]
                conv_lhs => rw [hin]⟩
            | some c =>
              exact Or.inl ⟨200, Json.obj [("response".data, c)], by
                rw [heq, if_neg hv, if_neg hst]
                conv_lhs => rw [hin]⟩
  refine ⟨?_, hcat⟩
  rcases hcat with ⟨st, bd, h⟩ | ⟨evs, _, h⟩ | ⟨evs, _, h, _⟩ <;>
    (rw [h]; intro hc; exact HandlerResult.noConfusion hc)

theorem claim_C4_witness :
    handler ⟨"POST".data, some (Json.obj [("message".data, Json.str "hi".data),
        ("stream".data, Json.bool true)])⟩
      ⟨StreamRun.failed [AgentEvent.modelContentBlockDeltaEvent (Delta.textDelta "x".data)],
        some none⟩
      ≠ HandlerResult.jsFault
    ∧ ((∃ st bd,
          handler ⟨"POST".data, some (Json.obj [("message".data, Json.str "hi".data),
              ("stream".data, Json.bool true)])⟩
            ⟨StreamRun.failed
                [AgentEvent.modelContentBlockDeltaEvent (Delta.textDelta "x".data)],
              some none⟩
            = HandlerResult.response st bd)
      ∨ (∃ evs,
          (⟨StreamRun.failed
              [AgentEvent.modelContentBlockDeltaEvent (Delta.textDelta "x".data)],
            some none⟩ : AgentBehavior).streamed = StreamRun.completed evs
          ∧ handler ⟨"POST".data, some (Json.obj [("message".data, Json.str "hi".data),
                ("stream".data, Json.bool true)])⟩
              ⟨StreamRun.failed
                  [AgentEvent.modelContentBlockDeltaEvent (Delta.textDelta "x".data)],
                some none⟩
              = HandlerResult.sseResponse (evs.filterMap eventWrite ++ [doneWrite]) true)
      ∨ (∃ evs,
          (⟨StreamRun.failed
              [AgentEvent.modelContentBlockDeltaEvent (Delta.textDelta "x".data)],
            some none⟩ : AgentBehavior).streamed = StreamRun.failed evs
          ∧ handler ⟨"POST".data, some (Json.obj [("message".data, Json.str "hi".data),
                ("stream".data, Json.bool true)])⟩
              ⟨StreamRun.failed
                  [AgentEvent.modelContentBlockDeltaEvent (Delta.textDelta "x".data)],
                some none⟩
              = HandlerResult.sseResponse
                  (evs.filterMap eventWrite ++ [sseDataWrite errorPayload]) true
          ∧ sseDataWrite errorPayload ∉ evs.filterMap eventWrite)) :=
  claim_C4 ⟨"POST".data, some (Json.obj [("message".data, Json.str "hi".data),
      ("stream".data, Json.bool true)])⟩
    ⟨StreamRun.failed [AgentEvent.modelContentBlockDeltaEvent (Delta.textDelta "x".data)],
      some none⟩
    (Or.inr ⟨Json.obj [("message".data, Json.str "hi".data),
      ("stream".data, Json.bool true)], rfl, fun h => Json.noConfusion h⟩)

/-- C9 counterexample: the claim quantifies over every request, but a
non-POST request (whose body also carries no `message` string) is answered
with status 405, not 400, and a POST whose body is absent makes the
destructuring throw before the validation check runs, so the handler
faults instead of returning 400. -/
theorem claim_C9_counterexample :
    handler ⟨"GET".data, none⟩ ⟨StreamRun.completed [], some none⟩
      = HandlerResult.response 405 (errorBody "Method not allowed".data)
    ∧ handler ⟨"POST".data, none⟩ ⟨StreamRun.completed [], some none⟩
      = HandlerResult.jsFault
    ∧ HandlerResult.response 405 (errorBody "Method not allowed".data)
      ≠ HandlerResult.response 400 (errorBody "message is required".data) :=
  ⟨rfl, rfl, fun h => by injection h with h1 h2; exact absurd h1 (by decide)⟩

/-- C9 (amended: restricted to POST requests whose body destructures, i.e.
is present and not `null`): whenever the body's `message` field is absent
or not a string, both the streaming handler and the legacy handler respond
400 with body `\x7b error: "message is required" \x7d`, and the result does
not depend on the agent in any way (the agent is never invoked). -/
theorem claim_C9 (b : Json) (agent : AgentBehavior)
    (hb : b ≠ Json.null)
    (hmsg : ∀ s, jsGetField b "message".data ≠ some (Json.str s)) :
    handler ⟨"POST".data, some b⟩ agent
      = HandlerResult.response 400 (errorBody "message is required".data)
    ∧ (∀ agent2, handler ⟨"POST".data, some b⟩ agent2
        = handler ⟨"POST".data, some b⟩ agent)
    ∧ handlerLegacy ⟨"POST".data, some b⟩ agent
      = HandlerResult.response 400 (errorBody "message is required".data) := by
  have hv := validation_fails (jsGetField b "message".data) hmsg
  refine ⟨?_, ?_, ?_⟩
  · rw [handler_eval ⟨"POST".data, some b⟩ agent b rfl rfl hb, if_pos hv]
  · intro agent2
    rw [handler_eval ⟨"POST".data, some b⟩ agent2 b rfl rfl hb, if_pos hv,
      handler_eval ⟨"POST".data, some b⟩ agent b rfl rfl hb, if_pos hv]
  · rw [handlerLegacy_eval ⟨"POST".data, some b⟩ agent b rfl rfl hb, if_pos hv]

theorem claim_C9_witness :
    handler ⟨"POST".data, some (Json.obj [])⟩ ⟨StreamRun.completed [], some none⟩
      = HandlerResult.response 400 (errorBody "message is required".data)
    ∧ (∀ agent2, handler ⟨"POST".data, some (Json.obj [])⟩ agent2
        = handler ⟨"POST".data, some (Json.obj [])⟩ ⟨StreamRun.completed [], some none⟩)
    ∧ handlerLegacy ⟨"POST".data, some (Json.obj [])⟩ ⟨StreamRun.completed [], some none⟩
      = HandlerResult.response 400 (errorBody "message is required".data) :=
  claim_C9 (Json.obj []) ⟨StreamRun.completed [], some none⟩
    (fun h => Json.noConfusion h) (fun _ h => Option.noConfusion h)

/-- C10: for every POST request whose body destructures and whose
`message` field is the empty string, both handlers return 400 with
`\x7b error: "message is required" \x7d` and the result does not depend on
the agent; moreover the validation check passes exactly when `message` is
a non-empty string, so the precondition actually enforced is "non-empty
string", not merely "string". -/
theorem claim_C10 (b : Json) (agent : AgentBehavior)
    (hb : b ≠ Json.null)
    (hmsg : jsGetField b "message".data = some (Json.str [])) :
    (handler ⟨"POST".data, some b⟩ agent
      = HandlerResult.response 400 (errorBody "message is required".data)
    ∧ (∀ agent2, handler ⟨"POST".data, some b⟩ agent2
        = handler ⟨"POST".data, some b⟩ agent)
    ∧ handlerLegacy ⟨"POST".data, some b⟩ agent
      = HandlerResult.response 400 (errorBody "message is required".data))
    ∧ (∀ mo : Option Json,
        (!jsTruthyOpt mo || !isStringOpt mo) = false
          ↔ ∃ s, s ≠ [] ∧ mo = some (Json.str s)) := by
  have hv : (!jsTruthyOpt (jsGetField b "message".data)
      || !isStringOpt (jsGetField b "message".data)) = true := by
    rw [hmsg]; exact validation_fails_empty
  refine ⟨⟨?_, ?_, ?_⟩, ?_⟩
  · rw [handler_eval ⟨"POST".data, some b⟩ agent b rfl rfl hb, if_pos hv]
  · intro agent2
    rw [handler_eval ⟨"POST".data, some b⟩ agent2 b rfl rfl hb, if_pos hv,
      handler_eval ⟨"POST".data, some b⟩ agent b rfl rfl hb, if_pos hv]
  · rw [handlerLegacy_eval ⟨"POST".data, some b⟩ agent b rfl rfl hb, if_pos hv]
  · intro mo
    constructor
    · intro h
      cases mo with
      | none => exact absurd h (by decide)
      | some j =>
        cases j with
        | null => exact absurd h (by decide)
        | bool x => simp [isStringOpt] at h
        | num l => simp [isStringOpt] at h
        | str s =>
          cases s with
          | nil => exact absurd h (by decide)
          | cons c cs => exact ⟨c :: cs, by simp, rfl⟩
        | arr xs => simp [isStringOpt] at h
        | obj fs => simp [isStringOpt] at h
    · rintro ⟨s, hs, rfl⟩
      exact validation_passes s hs

theorem claim_C10_witness :
    (handler ⟨"POST".data, some (Json.obj [("message".data, Json.str [])])⟩
        ⟨StreamRun.completed [], some none⟩
      = HandlerResult.response 400 (errorBody "message is required".data)
    ∧ (∀ agent2,
        handler ⟨"POST".data, some (Json.obj [("message".data, Json.str [])])⟩ agent2
          = handler ⟨"POST".data, some (Json.obj [("message".data, Json.str [])])⟩
              ⟨StreamRun.completed [], some none⟩)
    ∧ handlerLegacy ⟨"POST".data, some (Json.obj [("message".data, Json.str [])])⟩
        ⟨StreamRun.completed [], some none⟩
      = HandlerResult.response 400 (errorBody "message is required".data))
    ∧ (∀ mo : Option Json,
        (!jsTruthyOpt mo || !isStringOpt mo) = false
          ↔ ∃ s, s ≠ [] ∧ mo = some (Json.str s)) :=
  claim_C10 (Json.obj [("message".data, Json.str [])])
    ⟨StreamRun.completed [], some none⟩
    (fun h => Json.noConfusion h) rfl
